import Mathlib

/-!
Shallow embedding of the RADIUS AVP decoding engine of
`epan/dissectors/packet-radius.c` (the AVP walker
`dissect_attribute_value_pairs`, the attribute decryption routine
`radius_decrypt_avp`, and the dictionary extension registry
`radius_register_avp_dissector`), together with theorems checking the
natural-language specification against it.

Modelling conventions:
* a `tvbuff_t` is a `List Nat` of byte values; `tvb_get_guint8` is modelled
  by `byteAtI` (which reduces mod 256, since the C getter returns a
  `guint8`); `tvb_memcpy` / `tvb_new_subset` are modelled by `extractI`
  (a subset whose declared length overruns the buffer is clipped to the
  buffer end, matching the "length -1 = to the end" convention of the
  host's tvb layer);
* C `int` arithmetic that mixes with `guint32` operands is modelled
  exactly: `guint32` subtraction is `sub32` (mod 2^32, so it underflows),
  `int -= guint32` is `subWrapI` and `int += guint32` is `addWrapI`
  (unsigned arithmetic followed by the two's-complement reinterpretation
  of the result as a 32-bit signed value);
* out-of-range tvb accesses raise exceptions in the host; the walker
  models the guarded spots (`tvb_get_guint8` of the AVP header,
  `tvb_ensure_length_remaining`, the vendor-header reads, and the
  `tvb_get_guint8` of the tag byte of a tagged descriptor) with a
  `truncated` status;
* the display/tree machinery (`proto_tree_add_*`, hf/ett handles) is a
  presentation concern and is out of scope; a decoded-attribute event
  keeps the semantic content that the C code renders (descriptor, vendor,
  code, tag, effective value region, decoded value);
* MD5 lives in `epan/crypt-md5.h`, outside the sources; the decryption is
  parameterised by an abstract digest function.
-/

namespace Radius

/-! ## C integer arithmetic helpers -/

/-- Reduction of an integer into `[0, 2^32)`, i.e. the value of a `guint32`. -/
def wrap32u (x : Int) : Int := x % 4294967296

/-- Reinterpretation of a `guint32` value as a two's-complement 32-bit `int`. -/
def toInt32 (x : Int) : Int :=
  if wrap32u x < 2147483648 then wrap32u x else wrap32u x - 4294967296

/-- C `offset += avp_length` where `offset` is `int` and `avp_length` is `guint32`:
the usual arithmetic conversions perform the addition in unsigned 32-bit
arithmetic and the result is converted back to `int`. -/
def addWrapI (o : Int) (n : Nat) : Int := toInt32 (o + n)

/-- C `length -= avp_length` where `length` is `int` and `avp_length` is `guint32`. -/
def subWrapI (l : Int) (n : Nat) : Int := toInt32 (l - n)

/-- C `guint32` subtraction `a - b` (wraps modulo 2^32). -/
def sub32 (a b : Nat) : Nat := (a + 4294967296 - b) % 4294967296

/-! ## tvb access -/

/-- Model of `tvb_get_guint8 tvb i`: the byte at offset `i`.  Negative or
out-of-range offsets read as 0 (the claims' hypotheses keep the guarded
reads in range; the header reads are guarded by a `truncated` status in
the walker). -/
def byteAtI (tvb : List Nat) (i : Int) : Nat :=
  if 0 ≤ i then tvb.getD i.toNat 0 % 256 else 0

/-- Byte slice `[off, off+n)` of the buffer, clipped at the buffer end. -/
def extract (tvb : List Nat) (off n : Nat) : List Nat := (tvb.drop off).take n

/-- Model of `tvb_memcpy`/`tvb_new_subset` at an `int` offset. -/
def extractI (tvb : List Nat) (i : Int) (n : Nat) : List Nat :=
  if 0 ≤ i then extract tvb i.toNat n else []

/-- Big-endian value of a byte list (`tvb_get_ntohs` / `ntoh24` / `ntohl` / `ntoh64`). -/
def beNat (bs : List Nat) : Nat := bs.foldl (fun a b => a * 256 + b) 0

/-! ## Data model -/

/-- Semantic value kinds selected by an attribute descriptor (the C code
stores a pointer to one of the `radius_*` decoder functions; an explicit
tag is the shallow embedding of that function identity). -/
inductive SemType where
  | integer
  | string
  | octets
  | ipaddr
  | ipv6addr
  | date
  | abinary
  | ifid
deriving DecidableEq, Repr

/-- Attribute descriptor `radius_attr_info_t` (semantic fields; the
`hf`/`hf_len`/`hf_tag`/`hf64`/`ett` display handles are presentation
state and are not modelled).  `type` is the semantic value decoder
(NULL possible for registry-created entries), `dissector` the custom
registered decoder. -/
structure RadiusAttrInfo where
  name : String
  code : Nat
  encrypt : Bool
  tagged : Bool
  type : Option SemType
  vs : Option (List (Nat × String))
  dissector : Option (List Nat → String)

/-- Vendor descriptor `radius_vendor_info_t` (its `attrs_by_id` hash table
is a partial map). -/
structure RadiusVendorInfo where
  name : String
  code : Nat
  attrs_by_id : Nat → Option RadiusAttrInfo

/-- The dictionary `radius_dictionary_t`.  The `*_by_name` tables are
write-only in these sources and are not modelled. -/
structure RadiusDictionary where
  attrs_by_id : Nat → Option RadiusAttrInfo
  vendors_by_id : Nat → Option RadiusVendorInfo

/-- Process-wide decryption context: the abstract MD5 digest function
(external, `epan/crypt-md5.h`), the `shared_secret` preference and the
`authenticator` bytes copied from the packet. -/
structure DecodeCtx where
  md5 : List Nat → List Nat
  shared_secret : List Nat
  authenticator : List Nat

/-- The fallback descriptor `no_dictionary_entry`:
`{"Unknown-Attribute",0,FALSE,FALSE,radius_octets, NULL, NULL, ...}`. -/
def no_dictionary_entry : RadiusAttrInfo :=
  { name := "Unknown-Attribute", code := 0, encrypt := false, tagged := false,
    type := some .octets, vs := none, dissector := none }

/-! ## Attribute decryption (`radius_decrypt_avp`) -/

/-- C `isprint` in the default locale: the printable ASCII range. -/
def isprintB (b : Nat) : Bool := 32 ≤ b && b ≤ 126

/-- Rendering of one output byte: printable bytes pass through literally,
non-printable bytes become a 3-digit octal escape (`sprintf "\\%03o"`;
inputs are bytes, i.e. < 512, so the escape has exactly 3 digits). -/
def renderByte (b : Nat) : String :=
  if isprintB b then (Char.ofNat b).toString
  else "\\" ++ (Char.ofNat (48 + b / 64 % 8)).toString
           ++ (Char.ofNat (48 + b / 8 % 8)).toString
           ++ (Char.ofNat (48 + b % 8)).toString

/-- `radius_decrypt_avp(dest, tvb, offset, length)` over the ciphertext
bytes `pd`.  Mirrors the C structure: one digest
`MD5(shared_secret ‖ authenticator)`; a first loop over
`i < 16 && i < length` appending the rendering of `pd[i] ^ digest[i]`;
a second loop over the remaining bytes appending them unmodified
(rendered); the whole wrapped in a leading and trailing quote. -/
def radius_decrypt_avp (md5 : List Nat → List Nat)
    (shared_secret authenticator pd : List Nat) : String :=
  let digest := md5 (shared_secret ++ authenticator)
  let loop1 := String.join (((pd.take 16).zipWith (fun c d => Nat.xor c d) digest).map renderByte)
  let loop2 := String.join ((pd.drop 16).map renderByte)
  "\"" ++ loop1 ++ loop2 ++ "\""

/-- Decryption as the specification words it: output byte `i` is
`ciphertext[i] XOR digest[i]` for `i < 16` and `ciphertext[i]` unchanged
for `i ≥ 16`; each output byte rendered; one leading and one trailing
quote.  (Spec-shaped definition, compared against `radius_decrypt_avp`.) -/
def radius_decrypt_spec (md5 : List Nat → List Nat)
    (shared_secret authenticator pd : List Nat) : String :=
  let digest := md5 (shared_secret ++ authenticator)
  let outBytes := (List.range pd.length).map
    (fun i => if i < 16 then Nat.xor (pd.getD i 0) (digest.getD i 0) else pd.getD i 0)
  "\"" ++ String.join (outBytes.map renderByte) ++ "\""

/-! ## Semantic value decoders -/

/-- Decoded display value of one AVP (what the C decoders append to the
`avp_item`). -/
inductive AvpValue where
  | octets (bs : List Nat)
  | text (bs : List Nat)
  | encrypted
  | decrypted (s : String)
  | uint (n : Nat) (label : Option String)
  | uint64 (n : Nat)
  | unhandledIntegerLen (n : Nat)
  | ip (n : Nat)
  | ipv6 (bs : List Nat)
  | date (n : Nat)
  | wrongLength (what : String)
  | custom (s : String)
  | nullDecoder
deriving DecidableEq

/-- `val_to_str(uint, a->vs, "Unknown")`. -/
def valToStr (tbl : List (Nat × String)) (n : Nat) : String :=
  match tbl.find? (fun p => p.1 = n) with
  | some p => p.2
  | none => "Unknown"

/-- Dispatch of the semantic value decoders (`radius_integer`,
`radius_string`, `radius_octets`, `radius_ipaddr`, `radius_ipv6addr`,
`radius_date`, `radius_abinary`, `radius_ifid`).  Each C decoder receives
the value region as `(tvb, offset, len)` where `len` is the C `int`
parameter — the `guint32 avp_length` (possibly underflowed) converted to
`int`.  The length-checked decoders branch on that `int` value
(`switch (len)` in `radius_integer`, `len != 4` / `len != 16` in
`radius_ipaddr`, `radius_ipv6addr`, `radius_date`), so after an
underflow they take the wrong-length branch even when the clipped slice
would have a matching length.  `radius_string`'s character loops are
bounded by the signed `len` (`i < length`), so a non-positive `len`
processes no bytes: its slice is `len.toNat` bytes.  The byte renderers
(`radius_octets`, `radius_abinary`, `radius_ifid`) pass `len` to the tvb
helpers, for which `-1` means "to the buffer end": their slice is the
unsigned length clipped at the buffer end (`(wrap32u len).toNat` bytes;
a length below `-1` would throw in the host, a corner outside the
claims).  `%u` of the unhandled-integer message prints the unsigned
reinterpretation of `len`. -/
def semDecode (ctx : DecodeCtx) (t : SemType) (entry : RadiusAttrInfo)
    (tvb : List Nat) (offset len : Int) : AvpValue :=
  match t with
  | .integer =>
      if len = 2 then
        .uint (beNat (extractI tvb offset 2))
          (entry.vs.map (fun tbl => valToStr tbl (beNat (extractI tvb offset 2))))
      else if len = 3 then
        .uint (beNat (extractI tvb offset 3))
          (entry.vs.map (fun tbl => valToStr tbl (beNat (extractI tvb offset 3))))
      else if len = 4 then
        .uint (beNat (extractI tvb offset 4))
          (entry.vs.map (fun tbl => valToStr tbl (beNat (extractI tvb offset 4))))
      else if len = 8 then .uint64 (beNat (extractI tvb offset 8))
      else .unhandledIntegerLen (wrap32u len).toNat
  | .string =>
      if entry.encrypt then
        if ctx.shared_secret = [] then .encrypted
        else .decrypted (radius_decrypt_avp ctx.md5 ctx.shared_secret ctx.authenticator
          (extractI tvb offset len.toNat))
      else .text (extractI tvb offset len.toNat)
  | .octets => .octets (extractI tvb offset (wrap32u len).toNat)
  | .ipaddr =>
      if len = 4 then .ip (beNat (extractI tvb offset 4)) else .wrongLength "IP address"
  | .ipv6addr =>
      if len = 16 then .ipv6 (extractI tvb offset 16) else .wrongLength "IPv6 address"
  | .date =>
      if len = 4 then .date (beNat (extractI tvb offset 4)) else .wrongLength "timestamp"
  | .abinary => .octets (extractI tvb offset (wrap32u len).toNat)
  | .ifid => .octets (extractI tvb offset (wrap32u len).toNat)

/-- Value of one AVP: a registered custom decoder takes precedence over
the semantic decoder selected by the descriptor (`.nullDecoder` marks the
out-of-contract case of a descriptor with neither — the C code would
call a NULL function pointer there).  The custom dissector receives
`tvb_new_subset(tvb, offset, (gint)avp_length, (gint)avp_length)` (the
clipped slice, under the tvb `-1` = to-the-end convention); the semantic
decoder receives `(tvb, offset, len)` with `len` the `guint32` length
converted to `int`. -/
def avpValue (ctx : DecodeCtx) (entry : RadiusAttrInfo) (tvb : List Nat)
    (offset : Int) (effLen : Nat) : AvpValue :=
  match entry.dissector with
  | some f => .custom (f (extractI tvb offset effLen))
  | none =>
      match entry.type with
      | some t => semDecode ctx t entry tvb offset (toInt32 (effLen : Int))
      | none => .nullDecoder

/-! ## AVP walker -/

/-- One decoded-attribute event (spec §4.2 step 7): descriptor, vendor id
and name when the AVP was vendor-specific, numeric code, extracted tag,
and the effective value region (start offset, length after the vendor /
tag shrinks) with its decoded value. -/
structure AvpEvent where
  entry : RadiusAttrInfo
  vendorId : Option Nat
  vendorName : Option String
  code : Nat
  tag : Option Nat
  valueOffset : Int
  effLen : Nat
  value : AvpValue

/-- Terminal condition of the walker over one AVP region. -/
inductive WalkStatus where
  | done
  | malformedAvp
  | fragmentOverflow
  | truncated
  | outOfFuel
deriving DecidableEq, Repr

/-- EAP reassembly state carried across loop iterations: the accumulation
buffer (`eap_buffer`/`eap_tot_len`), `eap_seg_num`, the `last_eap` flag
and the reassembled blob (`eap_tvb`, set when the last fragment is
detected). -/
structure EapState where
  accum : List Nat
  segNum : Nat
  lastEap : Bool
  eapTvb : Option (List Nat)
deriving DecidableEq, Repr

/-- Result of the walker loop: emitted events, terminal status, final EAP
state, and the final `offset` / `length` values of the C loop. -/
structure WalkResult where
  events : List AvpEvent
  status : WalkStatus
  eap : EapState
  finalOffset : Int
  finalLength : Int

/-- Vendor-specific dictionary lookup: `dictionary_entry` remains NULL
unless the vendor is found and its table has the sub-type. -/
def vsaLookup (dict : RadiusDictionary) (vendor_id avp_vsa_type : Nat) :
    Option RadiusAttrInfo :=
  match dict.vendors_by_id vendor_id with
  | some vendor => vendor.attrs_by_id avp_vsa_type
  | none => none

/-- `vendor_id = tvb_get_ntohl(tvb, offset+2)`. -/
def vendorIdAt (tvb : List Nat) (offset : Int) : Nat :=
  byteAtI tvb (offset + 2) * 16777216 + byteAtI tvb (offset + 3) * 65536 +
  byteAtI tvb (offset + 4) * 256 + byteAtI tvb (offset + 5)

/-- The vendor-specific / plain branch of the walker for a non-EAP AVP:
the selected dictionary entry, vendor id and name (when vendor-specific),
displayed code, and the value of `offset` / `avp_length` after the
`offset += 8; avp_length -= 8` (vendor) or `offset += 2; avp_length -= 2`
(plain) adjustment. -/
def avpLookup (dict : RadiusDictionary) (tvb : List Nat)
    (offset : Int) (avp_type avp_length : Nat) :
    RadiusAttrInfo × Option Nat × Option String × Nat × Int × Nat :=
  if avp_type = 26 then
    let vendor_id := vendorIdAt tvb offset
    let avp_vsa_type := byteAtI tvb (offset + 6)
    ((vsaLookup dict vendor_id avp_vsa_type).getD no_dictionary_entry,
     some vendor_id, (dict.vendors_by_id vendor_id).map (fun v => v.name),
     avp_vsa_type, offset + 8, sub32 avp_length 8)
  else
    ((dict.attrs_by_id avp_type).getD no_dictionary_entry,
     none, none, avp_type, offset + 2, sub32 avp_length 2)

/-- The condition under which the tag extraction throws: the descriptor
is tagged, so the C code executes `tag = tvb_get_guint8(tvb,offset)` on
the first effective-value byte — and that read is out of bounds
(`tvb_get_guint8` raises a bounds exception for a negative offset or one
at or past the buffer end).  This is reachable: a vendor-specific AVP of
declared outer length exactly 8 has an empty effective value region, so
when its dictionary entry is tagged and the AVP ends at the captured
buffer end, the tag read is one byte past the buffer. -/
def tagReadOOB (dict : RadiusDictionary) (tvb : List Nat)
    (offset : Int) (avp_type avp_length : Nat) : Prop :=
  (avpLookup dict tvb offset avp_type avp_length).1.tagged = true ∧
  ((avpLookup dict tvb offset avp_type avp_length).2.2.2.2.1 < 0 ∨
   (avpLookup dict tvb offset avp_type avp_length).2.2.2.2.1 + 1 > (tvb.length : Int))

instance (dict : RadiusDictionary) (tvb : List Nat) (offset : Int)
    (avp_type avp_length : Nat) :
    Decidable (tagReadOOB dict tvb offset avp_type avp_length) := by
  unfold tagReadOOB; infer_instance

/-- Processing of a non-EAP AVP after the header checks and the tag-read
bounds guard: the vendor-specific unwrap or plain dictionary lookup, the
tag extraction, the value decode, and the `offset += avp_length` advance.
Returns the decoded-attribute event and the new offset. -/
def processAvp (ctx : DecodeCtx) (dict : RadiusDictionary) (tvb : List Nat)
    (offset : Int) (avp_type avp_length : Nat) : AvpEvent × Int :=
  let info := avpLookup dict tvb offset avp_type avp_length
  let entry := info.1
  let offset2 := info.2.2.2.2.1
  let effLen0 := info.2.2.2.2.2
  let tagInfo : Option Nat × Int × Nat :=
    if entry.tagged then
      let tag := byteAtI tvb offset2
      if tag ≤ 31 then (some tag, offset2 + 1, sub32 effLen0 1)
      else (none, offset2, effLen0)
    else (none, offset2, effLen0)
  let offset3 := tagInfo.2.1
  let effLen := tagInfo.2.2
  let ev : AvpEvent :=
    ⟨entry, info.2.1, info.2.2.1, info.2.2.2.1, tagInfo.1, offset3, effLen,
     avpValue ctx entry tvb offset3 effLen⟩
  (ev, addWrapI offset3 effLen)

/-- Update of the EAP reassembly state by one EAP-Message AVP (after the
overflow check): append the fragment bytes, bump `eap_seg_num`, determine
`last_eap` by peeking at the next AVP's type, and on last-fragment
detection snapshot the accumulated buffer as the reassembled blob. -/
def eapStep (tvb : List Nat) (offset : Int) (avp_length : Nat)
    (st : EapState) : EapState :=
  let accum' := st.accum ++ extractI tvb (offset + 2) (avp_length - 2)
  let last_eap :=
    if offset + (avp_length : Int) + 3 ≤ (tvb.length : Int) then
      if byteAtI tvb (addWrapI offset avp_length) ≠ 79 then true else st.lastEap
    else true
  ⟨accum', st.segNum + 1, last_eap, if last_eap then some accum' else st.eapTvb⟩

/-- The `do { ... } while (length > 0)` loop of
`dissect_attribute_value_pairs`, with an explicit fuel for the recursion
(the termination theorem shows `length.toNat + 1` fuel never runs out for
positive `length`).  Each iteration mirrors the C body: read
`avp_type`/`avp_length`, the `avp_length < 3` bail-out, the
`length -= avp_length` countdown, `tvb_ensure_length_remaining`, then the
vendor-specific / EAP-message / plain branches, tag extraction (with its
bounds exception, `tagReadOOB`, when the tagged descriptor's tag byte
lies past the buffer end), value decode, and `offset += avp_length`
advance.  (The EAP branch is tested before the vendor branch; the two
conditions are mutually exclusive so the order is immaterial.) -/
def walkAux (ctx : DecodeCtx) (dict : RadiusDictionary) (tvb : List Nat) :
    Nat → Int → Int → EapState → WalkResult
  | 0, offset, length, st => ⟨[], .outOfFuel, st, offset, length⟩
  | fuel+1, offset, length, st =>
    if offset < 0 ∨ offset + 2 > (tvb.length : Int) then
      ⟨[], .truncated, st, offset, length⟩
    else
      let avp_type := byteAtI tvb offset
      let avp_length := byteAtI tvb (offset + 1)
      if avp_length < 3 then ⟨[], .malformedAvp, st, offset, length⟩
      else
        let length1 := subWrapI length avp_length
        if offset + (avp_length : Int) > (tvb.length : Int) then
          ⟨[], .truncated, st, offset, length1⟩
        else if avp_type = 79 then
          let eap_seg_len := avp_length - 2
          if st.accum.length + eap_seg_len > 4096 then
            ⟨[], .fragmentOverflow, st, offset, length1⟩
          else
            let st' := eapStep tvb offset avp_length st
            let offset' := addWrapI offset avp_length
            if length1 > 0 then walkAux ctx dict tvb fuel offset' length1 st'
            else ⟨[], .done, st', offset', length1⟩
        else if avp_type = 26 ∧ offset + 8 > (tvb.length : Int) then
          ⟨[], .truncated, st, offset, length1⟩
        else if tagReadOOB dict tvb offset avp_type avp_length then
          ⟨[], .truncated, st, offset, length1⟩
        else
          let pr := processAvp ctx dict tvb offset avp_type avp_length
          if length1 > 0 then
            let r := walkAux ctx dict tvb fuel pr.2 length1 st
            ⟨pr.1 :: r.events, r.status, r.eap, r.finalOffset, r.finalLength⟩
          else ⟨[pr.1], .done, st, pr.2, length1⟩

/-- Result of `dissect_attribute_value_pairs`: the events, terminal
status, the reassembled EAP blob handed to the external EAP decoder
(exactly once, after the loop — `none` when the final
`if (eap_tree && eap_tvb) call_dissector(...)` does not fire, in
particular on every early `return`), and the final loop variables. -/
structure DissectResult where
  events : List AvpEvent
  status : WalkStatus
  eapHandoff : Option (List Nat)
  finalOffset : Int
  finalLength : Int

/-- `dissect_attribute_value_pairs(tree, pinfo, tvb, offset, length)`:
the zero-length early out, the walker loop, then the single post-loop
EAP handoff. -/
def dissect_attribute_value_pairs (ctx : DecodeCtx) (dict : RadiusDictionary)
    (tvb : List Nat) (offset length : Int) : DissectResult :=
  if length = 0 then ⟨[], .done, none, offset, 0⟩
  else
    let r := walkAux ctx dict tvb (length.toNat + 1) offset length ⟨[], 0, false, none⟩
    ⟨r.events, r.status,
     if r.status = .done then r.eap.eapTvb else none,
     r.finalOffset, r.finalLength⟩

/-! ## Dictionary extension registry -/

/-- Functional update of a by-id hash table (`g_hash_table_insert`, and
in-place mutation of an entry already in the table). -/
def updateAttrTable (m : Nat → Option RadiusAttrInfo) (k : Nat)
    (v : RadiusAttrInfo) : Nat → Option RadiusAttrInfo :=
  fun x => if x = k then some v else m x

/-- `radius_register_avp_dissector(vendor_id, attribute_id, dissector)`.
With `vendor_id ≠ 0` it works in the vendor's table (creating an
`Unknown-Vendor-<id>` vendor if needed); with `vendor_id = 0` it works in
the top-level `attrs_by_id` table.  A missing entry is created as
`Unknown-Attribute-<id>` with `encrypt = FALSE`, `type = NULL`,
`vs = NULL`; the `tagged` field of the freshly `g_malloc`ed entry is left
uninitialised by the C code, modelled by the arbitrary `junkTagged`.
Finally the entry's `dissector` field is overwritten. -/
def radius_register_avp_dissector (junkTagged : Bool) (dict : RadiusDictionary)
    (vendor_id attribute_id : Nat) (diss : List Nat → String) : RadiusDictionary :=
  if vendor_id ≠ 0 then
    let vendor : RadiusVendorInfo :=
      match dict.vendors_by_id vendor_id with
      | some v => v
      | none =>
          { name := "Unknown-Vendor-" ++ toString vendor_id,
            code := vendor_id, attrs_by_id := fun _ => none }
    let entry : RadiusAttrInfo :=
      match vendor.attrs_by_id attribute_id with
      | some e => e
      | none =>
          { name := "Unknown-Attribute-" ++ toString attribute_id,
            code := attribute_id, encrypt := false, tagged := junkTagged,
            type := none, vs := none, dissector := none }
    let entry' := { entry with dissector := some diss }
    let vendor' := { vendor with
      attrs_by_id := updateAttrTable vendor.attrs_by_id attribute_id entry' }
    { dict with vendors_by_id :=
        fun x => if x = vendor_id then some vendor' else dict.vendors_by_id x }
  else
    let entry : RadiusAttrInfo :=
      match dict.attrs_by_id attribute_id with
      | some e => e
      | none =>
          { name := "Unknown-Attribute-" ++ toString attribute_id,
            code := attribute_id, encrypt := false, tagged := junkTagged,
            type := none, vs := none, dissector := none }
    let entry' := { entry with dissector := some diss }
    { dict with attrs_by_id := updateAttrTable dict.attrs_by_id attribute_id entry' }

/-! ## Well-formed AVP sequences (for the invariant claims) -/

/-- A declared AVP: its type byte and its value bytes; the declared outer
length is `payload.length + 2`. -/
structure AvpSpec where
  atype : Nat
  payload : List Nat
deriving DecidableEq, Repr

/-- Wire bytes of one declared AVP. -/
def avpBytes (a : AvpSpec) : List Nat := a.atype :: (a.payload.length + 2) :: a.payload

/-- Declared outer length of an AVP. -/
def declLen (a : AvpSpec) : Nat := a.payload.length + 2

/-- Sum of the declared lengths of a sequence of AVPs. -/
def sumLens (l : List AvpSpec) : Nat := (l.map declLen).sum

/-- Wire bytes of an AVP region. -/
def regionBytes (l : List AvpSpec) : List Nat := (l.map avpBytes).flatten

/-- Well-formedness of one AVP: byte-valued fields, declared length
`≥ 3` (at least one value byte) and `< 256`, and for a vendor-specific
AVP a declared length `≥ 8`. -/
def wfAvp (a : AvpSpec) : Prop :=
  a.atype < 256 ∧ 1 ≤ a.payload.length ∧ a.payload.length + 2 < 256 ∧
  (∀ b ∈ a.payload, b < 256) ∧ (a.atype = 26 → 6 ≤ a.payload.length)

instance (a : AvpSpec) : Decidable (wfAvp a) := by
  unfold wfAvp; infer_instance

/-! ## Arithmetic helper lemmas -/

theorem toInt32_eq (x : Int) (h1 : -2147483648 ≤ x) (h2 : x < 2147483648) :
    toInt32 x = x := by
  unfold toInt32 wrap32u; split <;> omega

theorem addWrapI_eq (o : Int) (n : Nat) (h0 : 0 ≤ o) (h : o + n < 2147483648) :
    addWrapI o n = o + n := by
  unfold addWrapI; exact toInt32_eq _ (by omega) h

theorem subWrapI_eq (l : Int) (n : Nat) (h1 : -2147483648 ≤ l - n)
    (h2 : l - n < 2147483648) : subWrapI l n = l - n := by
  unfold subWrapI; exact toInt32_eq _ h1 h2

theorem addWrapI_underflow (o : Int) (h0 : 1 ≤ o) (h1 : o ≤ 2147483648) :
    addWrapI o 4294967295 = o - 1 := by
  unfold addWrapI toInt32 wrap32u; split <;> omega

theorem sub32_eq (a b : Nat) (hb : b ≤ a) (ha : a < 4294967296) :
    sub32 a b = a - b := by
  unfold sub32; omega

theorem subWrapI_le (L : Int) (a : Nat) (h3 : 3 ≤ a) (ha : a < 256) (hL : 0 < L) :
    subWrapI L a ≤ L - 3 := by
  unfold subWrapI toInt32 wrap32u; split <;> omega

theorem byteAtI_lt (tvb : List Nat) (i : Int) : byteAtI tvb i < 256 := by
  unfold byteAtI; split
  · exact Nat.mod_lt _ (by omega)
  · omega

theorem byteAtI_eq (tvb : List Nat) (i : Int) (o : Nat) (hi : i = o) :
    byteAtI tvb i = tvb.getD o 0 % 256 := by
  subst hi; unfold byteAtI
  rw [if_pos (by omega)]
  simp

theorem extractI_eq (tvb : List Nat) (i : Int) (o n : Nat) (hi : i = o) :
    extractI tvb i n = extract tvb o n := by
  subst hi; unfold extractI
  rw [if_pos (by omega)]
  simp

/-! ## List helper lemmas -/

theorem getD_append_left (l₁ l₂ : List Nat) (n : Nat) (h : n < l₁.length) :
    (l₁ ++ l₂).getD n 0 = l₁.getD n 0 := by
  rw [List.getD_eq_getElem?_getD, List.getD_eq_getElem?_getD,
    List.getElem?_append_left h]

theorem getD_append_right (l₁ l₂ : List Nat) (n : Nat) (h : l₁.length ≤ n) :
    (l₁ ++ l₂).getD n 0 = l₂.getD (n - l₁.length) 0 := by
  rw [List.getD_eq_getElem?_getD, List.getD_eq_getElem?_getD,
    List.getElem?_append_right h]

theorem extract_length (tvb : List Nat) (o n : Nat) (h : o + n ≤ tvb.length) :
    (extract tvb o n).length = n := by
  unfold extract; rw [List.length_take, List.length_drop]; omega

theorem extract_length_le (tvb : List Nat) (o n : Nat) :
    (extract tvb o n).length ≤ n := by
  unfold extract; rw [List.length_take]; omega

theorem extractI_length_le (tvb : List Nat) (i : Int) (n : Nat) :
    (extractI tvb i n).length ≤ n := by
  unfold extractI; split
  · exact extract_length_le ..
  · simp

theorem extract_getD (tvb : List Nat) (o n k : Nat) (hk : k < n) :
    tvb.getD (o + k) 0 = (extract tvb o n).getD k 0 := by
  unfold extract
  rw [List.getD_eq_getElem?_getD, List.getD_eq_getElem?_getD,
    List.getElem?_take, if_pos hk, List.getElem?_drop]

theorem extract_append (tvb : List Nat) (o : Nat) (l₁ l₂ : List Nat)
    (h : extract tvb o (l₁.length + l₂.length) = l₁ ++ l₂)
    (hb : o + (l₁.length + l₂.length) ≤ tvb.length) :
    extract tvb o l₁.length = l₁ ∧ extract tvb (o + l₁.length) l₂.length = l₂ := by
  unfold extract at h ⊢
  rw [List.take_add] at h
  have hlen : ((tvb.drop o).take l₁.length).length = l₁.length := by
    rw [List.length_take, List.length_drop]; omega
  have := List.append_inj h hlen
  refine ⟨this.1, ?_⟩
  have h2 := this.2
  rw [List.drop_drop] at h2
  simpa [Nat.add_comm] using h2

/-! ## Facts about well-formed AVP regions -/

theorem avpBytes_length (a : AvpSpec) : (avpBytes a).length = declLen a := by
  simp [avpBytes, declLen]

theorem regionBytes_cons (a : AvpSpec) (l : List AvpSpec) :
    regionBytes (a :: l) = avpBytes a ++ regionBytes l := by
  simp [regionBytes]

theorem sumLens_cons (a : AvpSpec) (l : List AvpSpec) :
    sumLens (a :: l) = declLen a + sumLens l := by
  simp [sumLens]

theorem regionBytes_length (l : List AvpSpec) :
    (regionBytes l).length = sumLens l := by
  induction l with
  | nil => simp [regionBytes, sumLens]
  | cons a t ih =>
      rw [regionBytes_cons, sumLens_cons, List.length_append, avpBytes_length, ih]

theorem length_le_sumLens (l : List AvpSpec) (h : ∀ a ∈ l, wfAvp a) :
    l.length ≤ sumLens l := by
  induction l with
  | nil => simp [sumLens]
  | cons a t ih =>
      rw [sumLens_cons]
      have ha := h a (by simp)
      have : 3 ≤ declLen a := by
        have := ha.2.1; unfold declLen; omega
      have := ih (fun x hx => h x (by simp [hx]))
      simp only [List.length_cons]; omega

/-- Header and payload facts read off a well-formed AVP placed at offset
`o`, followed by `tail` bytes of the region. -/
theorem avp_head_facts (tvb : List Nat) (o : Nat) (a : AvpSpec) (tail : List Nat)
    (h : extract tvb o (declLen a + tail.length) = avpBytes a ++ tail)
    (hb : o + (declLen a + tail.length) ≤ tvb.length)
    (hwf : wfAvp a) :
    byteAtI tvb (o : Int) = a.atype ∧
    byteAtI tvb ((o : Int) + 1) = declLen a ∧
    extract tvb (o + 2) a.payload.length = a.payload ∧
    extract tvb (o + declLen a) tail.length = tail := by
  have hsplit := extract_append tvb o (avpBytes a) tail
    (by rw [avpBytes_length]; exact h) (by rw [avpBytes_length]; exact hb)
  rw [avpBytes_length] at hsplit
  have hhead := hsplit.1
  have hlen2 : ([a.atype, a.payload.length + 2] : List Nat).length = 2 := rfl
  have hdecl : declLen a = 2 + a.payload.length := by unfold declLen; omega
  have hsplit2 := extract_append tvb o [a.atype, a.payload.length + 2] a.payload
    (by rw [hlen2, ← hdecl]; simpa [avpBytes] using hhead)
    (by rw [hlen2, ← hdecl]; unfold declLen at hb; omega)
  have h0 : tvb.getD o 0 = a.atype := by
    have h' := extract_getD tvb o (declLen a) 0 (by unfold declLen; omega)
    rw [hhead] at h'
    simpa [avpBytes] using h'
  have h1 : tvb.getD (o + 1) 0 = a.payload.length + 2 := by
    have h' := extract_getD tvb o (declLen a) 1 (by unfold declLen; omega)
    rw [hhead] at h'
    simpa [avpBytes] using h'
  refine ⟨?_, ?_, ?_, hsplit.2⟩
  · rw [byteAtI_eq tvb _ o rfl, h0, Nat.mod_eq_of_lt hwf.1]
  · rw [byteAtI_eq tvb _ (o + 1) (by omega), h1]
    have := hwf.2.2.1
    unfold declLen
    omega
  · simpa [hlen2] using hsplit2.2

/-! ## Facts about the tag-read bounds guard -/

theorem sub32_lt (a b : Nat) : sub32 a b < 4294967296 := by
  unfold sub32; omega

theorem wrap32u_toInt32_natCast (n : Nat) (h : n < 4294967296) :
    (wrap32u (toInt32 (n : Int))).toNat = n := by
  unfold toInt32 wrap32u
  split <;> omega

/-- The tag read is in bounds whenever the byte after the vendor header
(vendor-specific) or after the AVP header (plain) is inside the buffer —
then the guard cannot fire, tagged descriptor or not. -/
theorem not_tagReadOOB (dict : RadiusDictionary) (tvb : List Nat) (offset : Int)
    (t dl : Nat) (h0 : 0 ≤ offset)
    (h26 : t = 26 → offset + 9 ≤ (tvb.length : Int))
    (hp : t ≠ 26 → offset + 3 ≤ (tvb.length : Int)) :
    ¬ tagReadOOB dict tvb offset t dl := by
  unfold tagReadOOB avpLookup
  by_cases ht : t = 26
  · rw [if_pos ht]
    rintro ⟨-, h⟩
    have h9 := h26 ht
    dsimp only at h
    rcases h with h | h <;> omega
  · rw [if_neg ht]
    rintro ⟨-, h⟩
    have h3 := hp ht
    dsimp only at h
    rcases h with h | h <;> omega

/-- The guard cannot fire for an untagged descriptor (no tag read). -/
theorem not_tagReadOOB_untagged (dict : RadiusDictionary) (tvb : List Nat)
    (offset : Int) (t dl : Nat)
    (h : (avpLookup dict tvb offset t dl).1.tagged = false) :
    ¬ tagReadOOB dict tvb offset t dl := by
  unfold tagReadOOB
  rintro ⟨h1, -⟩
  rw [h] at h1
  exact Bool.noConfusion h1

/-! ## One-iteration lemmas for the walker loop -/

theorem walkAux_step_truncated (ctx : DecodeCtx) (dict : RadiusDictionary)
    (tvb : List Nat) (f : Nat) (offset length : Int) (st : EapState)
    (hbad : offset < 0 ∨ offset + 2 > (tvb.length : Int)) :
    walkAux ctx dict tvb (f+1) offset length st =
      ⟨[], .truncated, st, offset, length⟩ := by
  simp only [walkAux, if_pos hbad]

theorem walkAux_step_malformed (ctx : DecodeCtx) (dict : RadiusDictionary)
    (tvb : List Nat) (f : Nat) (offset length : Int) (st : EapState)
    (hok : ¬(offset < 0 ∨ offset + 2 > (tvb.length : Int)))
    (hmal : byteAtI tvb (offset + 1) < 3) :
    walkAux ctx dict tvb (f+1) offset length st =
      ⟨[], .malformedAvp, st, offset, length⟩ := by
  simp only [walkAux, if_neg hok, if_pos hmal]

theorem walkAux_step_overflow (ctx : DecodeCtx) (dict : RadiusDictionary)
    (tvb : List Nat) (f : Nat) (offset length : Int) (st : EapState) (dl : Nat)
    (hok : ¬(offset < 0 ∨ offset + 2 > (tvb.length : Int)))
    (hT : byteAtI tvb offset = 79)
    (hDL : byteAtI tvb (offset + 1) = dl)
    (h3 : 3 ≤ dl)
    (hens : ¬(offset + (dl : Int) > (tvb.length : Int)))
    (hov : st.accum.length + (dl - 2) > 4096) :
    walkAux ctx dict tvb (f+1) offset length st =
      ⟨[], .fragmentOverflow, st, offset, subWrapI length dl⟩ := by
  simp only [walkAux, hT, hDL, if_neg hok, if_neg (by omega : ¬ dl < 3),
    if_neg hens, if_pos hov]
  rw [if_pos trivial]

theorem walkAux_step_eap (ctx : DecodeCtx) (dict : RadiusDictionary)
    (tvb : List Nat) (f : Nat) (offset length : Int) (st : EapState) (dl : Nat)
    (hok : ¬(offset < 0 ∨ offset + 2 > (tvb.length : Int)))
    (hT : byteAtI tvb offset = 79)
    (hDL : byteAtI tvb (offset + 1) = dl)
    (h3 : 3 ≤ dl)
    (hens : ¬(offset + (dl : Int) > (tvb.length : Int)))
    (hov : ¬(st.accum.length + (dl - 2) > 4096)) :
    walkAux ctx dict tvb (f+1) offset length st =
      (if subWrapI length dl > 0 then
        walkAux ctx dict tvb f (addWrapI offset dl) (subWrapI length dl)
          (eapStep tvb offset dl st)
      else ⟨[], .done, eapStep tvb offset dl st, addWrapI offset dl,
        subWrapI length dl⟩) := by
  simp only [walkAux, hT, hDL, if_neg hok, if_neg (by omega : ¬ dl < 3),
    if_neg hens, if_neg hov]
  rw [if_pos trivial]

theorem walkAux_step_plain (ctx : DecodeCtx) (dict : RadiusDictionary)
    (tvb : List Nat) (f : Nat) (offset length : Int) (st : EapState) (t dl : Nat)
    (hok : ¬(offset < 0 ∨ offset + 2 > (tvb.length : Int)))
    (hT : byteAtI tvb offset = t)
    (hDL : byteAtI tvb (offset + 1) = dl)
    (ht79 : t ≠ 79)
    (h3 : 3 ≤ dl)
    (hens : ¬(offset + (dl : Int) > (tvb.length : Int)))
    (h26 : ¬(t = 26 ∧ offset + 8 > (tvb.length : Int)))
    (hnotag : ¬ tagReadOOB dict tvb offset t dl) :
    walkAux ctx dict tvb (f+1) offset length st =
      (let pr := processAvp ctx dict tvb offset t dl
       if subWrapI length dl > 0 then
         let r := walkAux ctx dict tvb f pr.2 (subWrapI length dl) st
         ⟨pr.1 :: r.events, r.status, r.eap, r.finalOffset, r.finalLength⟩
       else ⟨[pr.1], .done, st, pr.2, subWrapI length dl⟩) := by
  simp only [walkAux, hT, hDL, if_neg hok, if_neg (by omega : ¬ dl < 3),
    if_neg hens, if_neg ht79, if_neg h26, if_neg hnotag]

/-! ## Facts about the processing of one non-EAP AVP -/

theorem processAvp_unknown (ctx : DecodeCtx) (dict : RadiusDictionary)
    (tvb : List Nat) (offset : Int) (t dl : Nat)
    (h26 : t ≠ 26) (hnone : dict.attrs_by_id t = none) :
    processAvp ctx dict tvb offset t dl =
      (⟨no_dictionary_entry, none, none, t, none, offset + 2, sub32 dl 2,
        .octets (extractI tvb (offset + 2) (sub32 dl 2))⟩,
       addWrapI (offset + 2) (sub32 dl 2)) := by
  have hrt : (wrap32u (toInt32 ((sub32 dl 2 : Nat) : Int))).toNat = sub32 dl 2 :=
    wrap32u_toInt32_natCast _ (sub32_lt _ _)
  simp only [processAvp, avpLookup, if_neg h26, hnone]
  simp [no_dictionary_entry, avpValue, semDecode, hrt]

theorem processAvp_vsa_unknown (ctx : DecodeCtx) (dict : RadiusDictionary)
    (tvb : List Nat) (offset : Int) (dl : Nat)
    (hnone : vsaLookup dict (vendorIdAt tvb offset) (byteAtI tvb (offset + 6)) = none) :
    processAvp ctx dict tvb offset 26 dl =
      (⟨no_dictionary_entry, some (vendorIdAt tvb offset),
        (dict.vendors_by_id (vendorIdAt tvb offset)).map (fun v => v.name),
        byteAtI tvb (offset + 6), none, offset + 8, sub32 dl 8,
        .octets (extractI tvb (offset + 8) (sub32 dl 8))⟩,
       addWrapI (offset + 8) (sub32 dl 8)) := by
  have hrt : (wrap32u (toInt32 ((sub32 dl 8 : Nat) : Int))).toNat = sub32 dl 8 :=
    wrap32u_toInt32_natCast _ (sub32_lt _ _)
  simp only [processAvp, avpLookup, hnone]
  rw [if_pos trivial]
  simp [no_dictionary_entry, avpValue, semDecode, hrt]

theorem processAvp_tag_le (ctx : DecodeCtx) (dict : RadiusDictionary)
    (tvb : List Nat) (offset : Int) (t dl : Nat)
    (h26 : t ≠ 26)
    (hTag : ((dict.attrs_by_id t).getD no_dictionary_entry).tagged = true)
    (hb : byteAtI tvb (offset + 2) ≤ 31) :
    (processAvp ctx dict tvb offset t dl).1.tag = some (byteAtI tvb (offset + 2)) ∧
    (processAvp ctx dict tvb offset t dl).1.valueOffset = offset + 2 + 1 ∧
    (processAvp ctx dict tvb offset t dl).1.effLen = sub32 (sub32 dl 2) 1 := by
  simp only [processAvp, avpLookup, if_neg h26, hTag, if_pos hb]
  simp

theorem processAvp_tag_gt (ctx : DecodeCtx) (dict : RadiusDictionary)
    (tvb : List Nat) (offset : Int) (t dl : Nat)
    (h26 : t ≠ 26)
    (hTag : ((dict.attrs_by_id t).getD no_dictionary_entry).tagged = true)
    (hb : ¬ byteAtI tvb (offset + 2) ≤ 31) :
    (processAvp ctx dict tvb offset t dl).1.tag = none ∧
    (processAvp ctx dict tvb offset t dl).1.valueOffset = offset + 2 ∧
    (processAvp ctx dict tvb offset t dl).1.effLen = sub32 dl 2 := by
  simp only [processAvp, avpLookup, if_neg h26, hTag, if_neg hb]
  simp

/-- The per-AVP offset advance of the walker: regardless of the vendor
unwrap and the optional tag shrink (including the `guint32` underflow of
a length-8 vendor AVP whose sub-value begins with a tag byte), the new
offset is the old offset plus the full declared outer length. -/
theorem processAvp_snd (ctx : DecodeCtx) (dict : RadiusDictionary)
    (tvb : List Nat) (o : Nat) (t dl : Nat)
    (h3 : 3 ≤ dl) (h255 : dl < 256) (h26 : t = 26 → 8 ≤ dl)
    (hrange : o + dl < 2147483648) :
    (processAvp ctx dict tvb (o : Int) t dl).2 = (o : Int) + dl := by
  by_cases ht : t = 26
  · have h8 : 8 ≤ dl := h26 ht
    subst ht
    simp only [processAvp, avpLookup]
    rw [if_pos trivial]
    rw [sub32_eq dl 8 (by omega) (by omega)]
    split
    · split
      · dsimp only
        by_cases hdl8 : dl = 8
        · subst hdl8
          rw [(by unfold sub32; omega : sub32 (8 - 8) 1 = 4294967295)]
          rw [addWrapI_underflow _ (by omega) (by omega)]
          omega
        · rw [sub32_eq (dl - 8) 1 (by omega) (by omega)]
          rw [addWrapI_eq _ _ (by omega) (by omega)]
          omega
      · dsimp only
        rw [addWrapI_eq _ _ (by omega) (by omega)]
        omega
    · dsimp only
      rw [addWrapI_eq _ _ (by omega) (by omega)]
      omega
  · simp only [processAvp, avpLookup, if_neg ht]
    rw [sub32_eq dl 2 (by omega) (by omega)]
    split
    · split
      · dsimp only
        rw [sub32_eq (dl - 2) 1 (by omega) (by omega)]
        rw [addWrapI_eq _ _ (by omega) (by omega)]
        omega
      · dsimp only
        rw [addWrapI_eq _ _ (by omega) (by omega)]
        omega
    · dsimp only
      rw [addWrapI_eq _ _ (by omega) (by omega)]
      omega

/-! ## The walker over a well-formed AVP region -/

/-- Walker behaviour over a well-formed AVP region: the loop finishes with
status `done`, having advanced the offset by exactly the sum of the
declared outer lengths with zero remaining countdown; AVPs other than
EAP-Message leave the EAP reassembly state untouched.  The disjunctive
hypothesis keeps every tag read inside the buffer: either every
vendor-specific AVP has declared length at least 9 (nonempty effective
value region), or at least one captured byte follows the region —
otherwise a tagged length-8 vendor AVP ending at the buffer end makes
the tag read throw (`tagReadOOB`). -/
theorem walkAux_wf (ctx : DecodeCtx) (dict : RadiusDictionary) (tvb : List Nat)
    (hlen : (tvb.length : Int) < 2147483648) :
    ∀ (avps : List AvpSpec) (f o : Nat) (st : EapState),
      avps ≠ [] →
      (∀ a ∈ avps, wfAvp a) →
      extract tvb o (sumLens avps) = regionBytes avps →
      o + sumLens avps ≤ tvb.length →
      ((∀ a ∈ avps, a.atype = 26 → 7 ≤ a.payload.length) ∨
        o + sumLens avps < tvb.length) →
      st.accum.length + sumLens avps ≤ 4098 →
      avps.length ≤ f →
      ∃ evs st',
        walkAux ctx dict tvb f (o : Int) (sumLens avps) st =
          ⟨evs, .done, st', (o : Int) + (sumLens avps : Int), 0⟩ ∧
        ((∀ a ∈ avps, a.atype ≠ 79) → st' = st) := by
  intro avps
  induction avps with
  | nil => intro f o st hne; exact absurd rfl hne
  | cons a rest ih =>
    intro f o st _ hwf hextract hb hcorner hacc hf
    obtain ⟨f', rfl⟩ : ∃ f', f = f' + 1 := by
      cases f with
      | zero => simp at hf
      | succ f' => exact ⟨f', rfl⟩
    have hwa : wfAvp a := hwf a (by simp)
    have hsumc : sumLens (a :: rest) = declLen a + sumLens rest := sumLens_cons a rest
    have hdl3 : 3 ≤ declLen a := by have := hwa.2.1; unfold declLen; omega
    have hdl256 : declLen a < 256 := by have := hwa.2.2.1; unfold declLen; omega
    have hlenN : tvb.length < 2147483648 := by exact_mod_cast hlen
    have h' : extract tvb o (declLen a + (regionBytes rest).length) =
        avpBytes a ++ regionBytes rest := by
      rw [regionBytes_length, ← hsumc, hextract, regionBytes_cons]
    have hb' : o + (declLen a + (regionBytes rest).length) ≤ tvb.length := by
      rw [regionBytes_length, ← hsumc]; exact hb
    obtain ⟨hT, hDL, _, hTail⟩ := avp_head_facts tvb o a (regionBytes rest) h' hb' hwa
    have hok : ¬((o : Int) < 0 ∨ (o : Int) + 2 > (tvb.length : Int)) := by
      push_neg; constructor <;> omega
    have hens : ¬((o : Int) + (declLen a : Int) > (tvb.length : Int)) := by
      push_neg; omega
    have hsub : subWrapI ((sumLens (a :: rest) : Nat) : Int) (declLen a) =
        ((sumLens rest : Nat) : Int) := by
      rw [subWrapI_eq _ _ (by omega) (by omega)]
      omega
    by_cases h79 : a.atype = 79
    · -- EAP-Message AVP
      have hT79 : byteAtI tvb (o : Int) = 79 := by rw [hT, h79]
      have hov : ¬(st.accum.length + (declLen a - 2) > 4096) := by omega
      rw [walkAux_step_eap ctx dict tvb f' (o : Int) _ st (declLen a)
        hok hT79 hDL hdl3 hens hov, hsub]
      rw [addWrapI_eq _ _ (by omega) (by omega)]
      rcases rest with _ | ⟨b, rest'⟩
      · rw [if_neg (by simp [sumLens] : ¬ ((sumLens ([] : List AvpSpec) : Nat) : Int) > 0)]
        refine ⟨[], eapStep tvb (o : Int) (declLen a) st, ?_, ?_⟩
        · have : ((o : Int) + (declLen a : Int)) =
              (o : Int) + ((sumLens [a] : Nat) : Int) := by
            simp [sumLens, declLen]
          rw [← this]
          have h0 : ((sumLens ([] : List AvpSpec) : Nat) : Int) = 0 := by
            simp [sumLens]
          rw [h0]
        · intro hall
          exact absurd h79 (hall a (by simp))
      · have hrest3 : 3 ≤ sumLens (b :: rest') := by
          have := (hwf b (by simp)).2.1
          rw [sumLens_cons]; unfold declLen; omega
        rw [if_pos (by omega : ((sumLens (b :: rest') : Nat) : Int) > 0)]
        have hoffc : ((o : Int) + (declLen a : Int)) = ((o + declLen a : Nat) : Int) := by
          push_cast; ring
        rw [hoffc]
        obtain ⟨evs, st', heq, _⟩ := ih (f') (o + declLen a)
          (eapStep tvb (o : Int) (declLen a) st) (by simp)
          (fun x hx => hwf x (by simp [hx]))
          (by rw [← regionBytes_length (b :: rest')]; exact hTail)
          (by omega)
          (by
            rcases hcorner with hA | hB
            · exact Or.inl (fun x hx hx26 => hA x (by simp [hx]) hx26)
            · right
              rw [hsumc] at hB
              omega)
          (by
            have hel := extractI_length_le tvb ((o : Int) + 2) (declLen a - 2)
            simp only [eapStep, List.length_append]
            omega)
          (by simpa using Nat.le_of_succ_le_succ (by simpa using hf))
        rw [heq]
        refine ⟨evs, st', ?_, ?_⟩
        · have : (((o + declLen a : Nat) : Int) + ((sumLens (b :: rest') : Nat) : Int)) =
              (o : Int) + ((sumLens (a :: b :: rest') : Nat) : Int) := by
            rw [hsumc]; push_cast; ring
          rw [this]
        · intro hall
          exact absurd h79 (hall a (by simp))
    · -- non-EAP AVP
      have h26ok : ¬(a.atype = 26 ∧ (o : Int) + 8 > (tvb.length : Int)) := by
        rintro ⟨h26, hgt⟩
        have := hwa.2.2.2.2 h26
        have : 8 ≤ declLen a := by unfold declLen; omega
        omega
      have hd_le : declLen a ≤ sumLens (a :: rest) := by rw [hsumc]; omega
      have hnotag : ¬ tagReadOOB dict tvb (o : Int) a.atype (declLen a) := by
        apply not_tagReadOOB
        · omega
        · intro h26'
          have h8 : 8 ≤ declLen a := by have := hwa.2.2.2.2 h26'; unfold declLen; omega
          rcases hcorner with hA | hB
          · have h9 : 9 ≤ declLen a := by
              have := hA a (by simp) h26'
              unfold declLen; omega
            omega
          · omega
        · intro _
          omega
      rw [walkAux_step_plain ctx dict tvb f' (o : Int) _ st a.atype (declLen a)
        hok hT hDL h79 hdl3 hens h26ok hnotag]
      simp only [hsub]
      have hpr2 : (processAvp ctx dict tvb (o : Int) a.atype (declLen a)).2 =
          (o : Int) + (declLen a : Int) := by
        exact processAvp_snd ctx dict tvb o a.atype (declLen a) hdl3 hdl256
          (fun h26 => by have := hwa.2.2.2.2 h26; unfold declLen; omega)
          (by omega)
      rcases rest with _ | ⟨b, rest'⟩
      · rw [if_neg (by simp [sumLens] : ¬ ((sumLens ([] : List AvpSpec) : Nat) : Int) > 0)]
        refine ⟨[(processAvp ctx dict tvb (o : Int) a.atype (declLen a)).1], st, ?_, ?_⟩
        · rw [hpr2]
          have : ((o : Int) + (declLen a : Int)) =
              (o : Int) + ((sumLens [a] : Nat) : Int) := by
            simp [sumLens, declLen]
          rw [← this]
          have h0 : ((sumLens ([] : List AvpSpec) : Nat) : Int) = 0 := by
            simp [sumLens]
          rw [h0]
        · intro _; rfl
      · have hrest3 : 3 ≤ sumLens (b :: rest') := by
          have := (hwf b (by simp)).2.1
          rw [sumLens_cons]; unfold declLen; omega
        rw [if_pos (by omega : ((sumLens (b :: rest') : Nat) : Int) > 0)]
        rw [hpr2]
        have hoffc : ((o : Int) + (declLen a : Int)) = ((o + declLen a : Nat) : Int) := by
          push_cast; ring
        rw [hoffc]
        obtain ⟨evs, st', heq, himp⟩ := ih (f') (o + declLen a) st (by simp)
          (fun x hx => hwf x (by simp [hx]))
          (by rw [← regionBytes_length (b :: rest')]; exact hTail)
          (by omega)
          (by
            rcases hcorner with hA | hB
            · exact Or.inl (fun x hx hx26 => hA x (by simp [hx]) hx26)
            · right
              rw [hsumc] at hB
              omega)
          (by omega)
          (by simpa using Nat.le_of_succ_le_succ (by simpa using hf))
        rw [heq]
        refine ⟨(processAvp ctx dict tvb (o : Int) a.atype (declLen a)).1 :: evs, st', ?_, ?_⟩
        · have : (((o + declLen a : Nat) : Int) + ((sumLens (b :: rest') : Nat) : Int)) =
              (o : Int) + ((sumLens (a :: b :: rest') : Nat) : Int) := by
            rw [hsumc]; push_cast; ring
          rw [this]
        · intro hall
          exact himp (fun x hx => hall x (by simp [hx]))

/-! ## Fuel sufficiency and accumulator invariant -/

/-- With fuel exceeding the positive countdown, the walker never runs out
of fuel: each continuing iteration decreases the countdown by the
declared AVP length, which the `avp_length < 3` check bounds below by 3. -/
theorem walkAux_fuel_enough (ctx : DecodeCtx) (dict : RadiusDictionary) (tvb : List Nat) :
    ∀ (f : Nat) (offset length : Int) (st : EapState),
      0 < length → length.toNat < f →
      (walkAux ctx dict tvb f offset length st).status ≠ .outOfFuel := by
  intro f
  induction f with
  | zero => intro offset length st h1 h2; omega
  | succ f ih =>
    intro offset length st h1 h2
    have hbl := byteAtI_lt tvb (offset + 1)
    simp only [walkAux]
    split
    · simp
    split
    · simp
    next hge3 =>
    split
    · simp
    split
    · split
      · simp
      · split
        next hrec =>
          have hle := subWrapI_le length (byteAtI tvb (offset + 1)) (by omega) hbl h1
          exact ih _ _ _ hrec (by omega)
        · simp
    · split
      · simp
      · split
        · simp
        · split
          next hrec =>
            dsimp only
            have hle := subWrapI_le length (byteAtI tvb (offset + 1)) (by omega) hbl h1
            exact ih _ _ _ hrec (by omega)
          · simp

/-- The EAP accumulation buffer never grows past the maximum RADIUS
packet size: every append is guarded by the overflow check. -/
theorem walkAux_accum_le (ctx : DecodeCtx) (dict : RadiusDictionary) (tvb : List Nat) :
    ∀ (f : Nat) (offset length : Int) (st : EapState),
      st.accum.length ≤ 4096 →
      (walkAux ctx dict tvb f offset length st).eap.accum.length ≤ 4096 := by
  intro f
  induction f with
  | zero => intro _ _ st h; simpa [walkAux] using h
  | succ f ih =>
    intro offset length st h
    simp only [walkAux]
    split
    · simpa using h
    split
    · simpa using h
    split
    · simpa using h
    split
    · split
      next hov => simpa using h
      next hov =>
        split
        · apply ih
          have := extractI_length_le tvb (offset + 2) (byteAtI tvb (offset + 1) - 2)
          simp only [eapStep, List.length_append]
          omega
        · dsimp only
          have := extractI_length_le tvb (offset + 2) (byteAtI tvb (offset + 1) - 2)
          simp only [eapStep, List.length_append]
          omega
    · split
      · simpa using h
      · split
        · simpa using h
        · split
          · dsimp only; exact ih _ _ _ h
          · simpa using h

/-! ## Witness fixtures -/

/-- Concrete decode context used by the witness instances. -/
def witCtx : DecodeCtx := ⟨fun _ => List.replicate 16 0, [], []⟩

/-- Empty dictionary used by the witness instances. -/
def witDict : RadiusDictionary := ⟨fun _ => none, fun _ => none⟩

/-- Tagged attribute descriptor for the C8 witness and the refuting
instances of C2/C5. -/
def witTagAttr : RadiusAttrInfo :=
  ⟨"Tunnel-Type", 64, false, true, some .integer, none, none⟩

/-- Dictionary with one tagged attribute (code 64) for the C8 witness. -/
def witDictTag : RadiusDictionary :=
  ⟨fun c => if c = 64 then some witTagAttr else none, fun _ => none⟩

/-- Vendor 9 with one tagged sub-attribute (code 1), for the refuting
instances of C2/C5. -/
def witVendorTag : RadiusVendorInfo :=
  ⟨"V9", 9, fun c => if c = 1 then some witTagAttr else none⟩

/-- Dictionary mapping vendor 9 to `witVendorTag`, for the refuting
instances of C2/C5. -/
def witDictVTag : RadiusDictionary :=
  ⟨fun _ => none, fun v => if v = 9 then some witVendorTag else none⟩

/-! ## Claim C2 -/

/-- Refuting instance for C2 as originally stated: a well-formed region
(one Vendor-Specific AVP of declared outer length exactly 8, vendor 9,
sub-type 1, total length 28) whose dictionary entry is tagged, with the
captured buffer ending exactly at the region end.  The effective value
region is empty, so the tag extraction reads the byte at the buffer end:
`tvb_get_guint8` (line 472) throws a bounds exception mid-iteration, and
the walker aborts instead of finishing with zero remainder. -/
theorem avp_walker_zero_remainder_c2_counterexample :
    (∀ a ∈ [AvpSpec.mk 26 [0, 0, 0, 9, 1, 2]], wfAvp a) ∧
    sumLens [AvpSpec.mk 26 [0, 0, 0, 9, 1, 2]] = 28 - 20 ∧
    extract [26, 8, 0, 0, 0, 9, 1, 2] 0 (sumLens [AvpSpec.mk 26 [0, 0, 0, 9, 1, 2]]) =
      regionBytes [AvpSpec.mk 26 [0, 0, 0, 9, 1, 2]] ∧
    0 + sumLens [AvpSpec.mk 26 [0, 0, 0, 9, 1, 2]] ≤
      ([26, 8, 0, 0, 0, 9, 1, 2] : List Nat).length ∧
    (dissect_attribute_value_pairs witCtx witDictVTag [26, 8, 0, 0, 0, 9, 1, 2]
      ((0 : Nat) : Int)
      ((sumLens [AvpSpec.mk 26 [0, 0, 0, 9, 1, 2]] : Nat) : Int)).status = .truncated ∧
    (dissect_attribute_value_pairs witCtx witDictVTag [26, 8, 0, 0, 0, 9, 1, 2]
      ((0 : Nat) : Int)
      ((sumLens [AvpSpec.mk 26 [0, 0, 0, 9, 1, 2]] : Nat) : Int)).status ≠ .done ∧
    (dissect_attribute_value_pairs witCtx witDictVTag [26, 8, 0, 0, 0, 9, 1, 2]
      ((0 : Nat) : Int)
      ((sumLens [AvpSpec.mk 26 [0, 0, 0, 9, 1, 2]] : Nat) : Int)).finalOffset ≠
      ((0 : Nat) : Int) + ((sumLens [AvpSpec.mk 26 [0, 0, 0, 9, 1, 2]] : Nat) : Int) :=
  ⟨by decide, by decide, by decide, by decide, by decide, by decide, by decide⟩

/-- C2 (amended): for every packet whose AVP region is a well-formed
sequence of AVPs (each declared length at least 3, vendor-specific AVPs
at least 8, the declared lengths summing exactly to `total_length - 20`),
the AVP Walker advances past each AVP by exactly its full declared outer
length — vendor-header consumption and optional tag shrink
notwithstanding — and finishes having consumed exactly the AVP-region
bytes with zero remainder, provided every vendor-specific AVP has
declared length at least 9 or at least one captured byte follows the AVP
region (otherwise a tagged length-8 vendor AVP ending exactly at the
buffer end makes the tag-byte read throw a bounds exception, aborting
the walk — the refuting instance above). -/
theorem avp_walker_zero_remainder_c2
    (ctx : DecodeCtx) (dict : RadiusDictionary) (tvb : List Nat)
    (o totalLen : Nat) (avps : List AvpSpec)
    (hwf : ∀ a ∈ avps, wfAvp a)
    (hsum : sumLens avps = totalLen - 20)
    (h20 : 20 ≤ totalLen) (h4096 : totalLen ≤ 4096)
    (hextract : extract tvb o (sumLens avps) = regionBytes avps)
    (hb : o + sumLens avps ≤ tvb.length)
    (hcorner : (∀ a ∈ avps, a.atype = 26 → 7 ≤ a.payload.length) ∨
      o + sumLens avps < tvb.length)
    (hlen : (tvb.length : Int) < 2147483648) :
    (dissect_attribute_value_pairs ctx dict tvb (o : Int) ((sumLens avps : Nat) : Int)).status = .done ∧
    (dissect_attribute_value_pairs ctx dict tvb (o : Int) ((sumLens avps : Nat) : Int)).finalOffset
      = (o : Int) + ((sumLens avps : Nat) : Int) ∧
    (dissect_attribute_value_pairs ctx dict tvb (o : Int) ((sumLens avps : Nat) : Int)).finalLength = 0 := by
  by_cases hnil : avps = []
  · subst hnil
    simp [dissect_attribute_value_pairs, sumLens]
  · have hne : sumLens avps ≠ 0 := by
      rcases avps with _ | ⟨a, rest⟩
      · exact absurd rfl hnil
      · have := (hwf a (by simp)).2.1
        rw [sumLens_cons]; unfold declLen; omega
    unfold dissect_attribute_value_pairs
    rw [if_neg (by exact_mod_cast hne)]
    rw [Int.toNat_natCast]
    obtain ⟨evs, st', heq, _⟩ := walkAux_wf ctx dict tvb hlen avps (sumLens avps + 1) o
      ⟨[], 0, false, none⟩ hnil hwf hextract hb hcorner
      (by simp only [List.length_nil]; omega)
      (by have := length_le_sumLens avps hwf; omega)
    rw [heq]
    exact ⟨rfl, rfl, rfl⟩

theorem avp_walker_zero_remainder_c2_witness :
    (∀ a ∈ [AvpSpec.mk 1 [65]], wfAvp a) ∧
    sumLens [AvpSpec.mk 1 [65]] = 23 - 20 ∧
    extract [1, 3, 65] 0 (sumLens [AvpSpec.mk 1 [65]]) = regionBytes [AvpSpec.mk 1 [65]] ∧
    (dissect_attribute_value_pairs witCtx witDict [1, 3, 65] (0 : Nat)
      ((sumLens [AvpSpec.mk 1 [65]] : Nat) : Int)).status = .done ∧
    (dissect_attribute_value_pairs witCtx witDict [1, 3, 65] (0 : Nat)
      ((sumLens [AvpSpec.mk 1 [65]] : Nat) : Int)).finalOffset
      = ((0 : Nat) : Int) + ((sumLens [AvpSpec.mk 1 [65]] : Nat) : Int) ∧
    (dissect_attribute_value_pairs witCtx witDict [1, 3, 65] (0 : Nat)
      ((sumLens [AvpSpec.mk 1 [65]] : Nat) : Int)).finalLength = 0 := by
  refine ⟨by decide, by decide, by decide, ?_⟩
  have h := avp_walker_zero_remainder_c2 witCtx witDict [1, 3, 65] 0 23 [AvpSpec.mk 1 [65]]
    (by decide) (by decide) (by decide) (by decide) (by decide) (by decide)
    (Or.inl (by decide)) (by decide)
  exact h

/-! ## Claim C9 -/

/-- C9: for every input byte buffer and every positive AVP-region
length, the AVP Walker's loop terminates: with fuel exceeding the
countdown the recursion never exhausts it, because each continuing
iteration decreases the remaining length by the declared AVP length,
which the preceding check guarantees is at least 3; the entry point
`dissect_attribute_value_pairs` supplies that much fuel. -/
theorem avp_walker_terminates_c9
    (ctx : DecodeCtx) (dict : RadiusDictionary) (tvb : List Nat)
    (fuel : Nat) (offset length : Int) (st : EapState)
    (hpos : 0 < length) (hfuel : length.toNat < fuel) :
    (walkAux ctx dict tvb fuel offset length st).status ≠ .outOfFuel ∧
    (dissect_attribute_value_pairs ctx dict tvb offset length).status ≠ .outOfFuel := by
  refine ⟨walkAux_fuel_enough ctx dict tvb fuel offset length st hpos hfuel, ?_⟩
  unfold dissect_attribute_value_pairs
  rw [if_neg (by omega)]
  exact walkAux_fuel_enough ctx dict tvb (length.toNat + 1) offset length
    ⟨[], 0, false, none⟩ hpos (by omega)

theorem avp_walker_terminates_c9_witness :
    (walkAux witCtx witDict [1, 3, 65] 4 0 3 ⟨[], 0, false, none⟩).status ≠ .outOfFuel ∧
    (dissect_attribute_value_pairs witCtx witDict [1, 3, 65] 0 3).status ≠ .outOfFuel :=
  avp_walker_terminates_c9 witCtx witDict [1, 3, 65] 4 0 3 ⟨[], 0, false, none⟩
    (by decide) (by decide)

/-! ## Claim C6 -/

/-- C6: if appending an EAP-Message fragment would make the accumulated
reassembly size exceed the maximum RADIUS packet size (4096), the walker
reports the fragment-exceeds-maximum-packet-size condition and aborts the
remainder of the region (no events, state unchanged); and the
accumulation buffer is never written past the maximum. -/
theorem eap_fragment_overflow_c6 :
    (∀ (ctx : DecodeCtx) (dict : RadiusDictionary) (tvb : List Nat) (f : Nat)
       (offset length : Int) (st : EapState) (dl : Nat),
       ¬(offset < 0 ∨ offset + 2 > (tvb.length : Int)) →
       byteAtI tvb offset = 79 →
       byteAtI tvb (offset + 1) = dl →
       3 ≤ dl →
       ¬(offset + (dl : Int) > (tvb.length : Int)) →
       st.accum.length + (dl - 2) > 4096 →
       walkAux ctx dict tvb (f + 1) offset length st =
         ⟨[], .fragmentOverflow, st, offset, subWrapI length dl⟩) ∧
    (∀ (ctx : DecodeCtx) (dict : RadiusDictionary) (tvb : List Nat) (f : Nat)
       (offset length : Int) (st : EapState),
       st.accum.length ≤ 4096 →
       (walkAux ctx dict tvb f offset length st).eap.accum.length ≤ 4096) :=
  ⟨fun ctx dict tvb f offset length st dl =>
      walkAux_step_overflow ctx dict tvb f offset length st dl,
   fun ctx dict tvb f offset length st =>
      walkAux_accum_le ctx dict tvb f offset length st⟩

set_option maxRecDepth 40000 in
theorem eap_fragment_overflow_c6_witness :
    (walkAux witCtx witDict ([79, 255] ++ List.replicate 253 0) 1 0 255
        ⟨List.replicate 3900 0, 1, false, none⟩ =
      ⟨[], .fragmentOverflow, ⟨List.replicate 3900 0, 1, false, none⟩, 0,
        subWrapI 255 255⟩) ∧
    (walkAux witCtx witDict ([79, 255] ++ List.replicate 253 0) 1 0 255
        ⟨List.replicate 3900 0, 1, false, none⟩).eap.accum.length ≤ 4096 :=
  ⟨eap_fragment_overflow_c6.1 witCtx witDict ([79, 255] ++ List.replicate 253 0) 0 0 255
      ⟨List.replicate 3900 0, 1, false, none⟩ 255
      (by decide) (by decide) (by decide) (by decide) (by decide)
      (by simp only [List.length_replicate]; omega),
   eap_fragment_overflow_c6.2 witCtx witDict ([79, 255] ++ List.replicate 253 0) 1 0 255
      ⟨List.replicate 3900 0, 1, false, none⟩
      (by simp only [List.length_replicate]; omega)⟩

/-! ## Claim C4 -/

/-- C4: an AVP whose declared length is less than 3 stops the walker
immediately with a fatal MalformedAvp report: no event is emitted for the
malformed AVP or for any bytes following it (first part, at any walker
state), while decoded-attribute events for AVPs preceding the malformed
one are retained — a region of one well-formed AVP followed by a
length-1 AVP yields exactly the one preceding event, status MalformedAvp,
and no EAP handoff (second part). -/
theorem malformed_avp_stops_c4 :
    (∀ (ctx : DecodeCtx) (dict : RadiusDictionary) (tvb : List Nat) (f : Nat)
       (offset length : Int) (st : EapState),
       ¬(offset < 0 ∨ offset + 2 > (tvb.length : Int)) →
       byteAtI tvb (offset + 1) < 3 →
       walkAux ctx dict tvb (f + 1) offset length st =
         ⟨[], .malformedAvp, st, offset, length⟩) ∧
    (∀ (ctx : DecodeCtx) (dict : RadiusDictionary) (tvb : List Nat) (o : Nat)
       (a : AvpSpec) (t : Nat),
       wfAvp a → a.atype ≠ 79 →
       extract tvb o (declLen a + 2) = avpBytes a ++ [t, 1] →
       o + (declLen a + 2) ≤ tvb.length →
       (tvb.length : Int) < 2147483648 →
       (dissect_attribute_value_pairs ctx dict tvb (o : Int)
         ((declLen a + 2 : Nat) : Int)).status = .malformedAvp ∧
       (dissect_attribute_value_pairs ctx dict tvb (o : Int)
         ((declLen a + 2 : Nat) : Int)).events.length = 1 ∧
       (dissect_attribute_value_pairs ctx dict tvb (o : Int)
         ((declLen a + 2 : Nat) : Int)).eapHandoff = none) := by
  constructor
  · intro ctx dict tvb f offset length st hok hmal
    exact walkAux_step_malformed ctx dict tvb f offset length st hok hmal
  · intro ctx dict tvb o a t hwf h79 hx hb hlen
    have hdl3 : 3 ≤ declLen a := by have := hwf.2.1; unfold declLen; omega
    have hdl256 : declLen a < 256 := by have := hwf.2.2.1; unfold declLen; omega
    have hlenN : tvb.length < 2147483648 := by exact_mod_cast hlen
    obtain ⟨hT, hDL, _, hTail⟩ := avp_head_facts tvb o a [t, 1] hx hb hwf
    unfold dissect_attribute_value_pairs
    rw [if_neg (by push_cast; omega)]
    rw [Int.toNat_natCast]
    rw [walkAux_step_plain ctx dict tvb (declLen a + 2) (o : Int) _ _ a.atype (declLen a)
      (by push_neg; constructor <;> omega)
      hT hDL h79 hdl3
      (by push_neg; omega)
      (by rintro ⟨h26, hgt⟩
          have := hwf.2.2.2.2 h26
          have h8 : 8 ≤ declLen a := by unfold declLen; omega
          omega)
      (not_tagReadOOB dict tvb (o : Int) a.atype (declLen a) (by omega)
        (fun h26' => by
          have h8 : 8 ≤ declLen a := by
            have := hwf.2.2.2.2 h26'; unfold declLen; omega
          omega)
        (fun _ => by omega))]
    have hsub : subWrapI ((declLen a + 2 : Nat) : Int) (declLen a) = 2 := by
      rw [subWrapI_eq _ _ (by push_cast; omega) (by push_cast; omega)]
      push_cast; ring
    rw [hsub]
    rw [if_pos (by omega : (2 : Int) > 0)]
    rw [processAvp_snd ctx dict tvb o a.atype (declLen a) hdl3 hdl256
      (fun h26 => by have := hwf.2.2.2.2 h26; unfold declLen; omega) (by omega)]
    have h22 : declLen a + 2 = (declLen a + 1) + 1 := by omega
    rw [h22]
    have hTail2 : extract tvb (o + declLen a) 2 = [t, 1] := hTail
    have hmal2 : byteAtI tvb ((o : Int) + (declLen a : Int) + 1) < 3 := by
      have hg := extract_getD tvb (o + declLen a) 2 1 (by omega)
      rw [hTail2] at hg
      rw [byteAtI_eq tvb _ (o + declLen a + 1) (by push_cast; ring)]
      rw [hg]
      simp
    rw [walkAux_step_malformed ctx dict tvb (declLen a + 1) _ _ _
      (by push_neg; constructor <;> omega) hmal2]
    exact ⟨rfl, rfl, rfl⟩

theorem malformed_avp_stops_c4_witness :
    wfAvp (AvpSpec.mk 1 [65]) ∧
    extract [1, 3, 65, 5, 1] 0 (declLen (AvpSpec.mk 1 [65]) + 2) =
      avpBytes (AvpSpec.mk 1 [65]) ++ [5, 1] ∧
    (dissect_attribute_value_pairs witCtx witDict [1, 3, 65, 5, 1] ((0 : Nat) : Int)
      ((declLen (AvpSpec.mk 1 [65]) + 2 : Nat) : Int)).status = .malformedAvp ∧
    (dissect_attribute_value_pairs witCtx witDict [1, 3, 65, 5, 1] ((0 : Nat) : Int)
      ((declLen (AvpSpec.mk 1 [65]) + 2 : Nat) : Int)).events.length = 1 ∧
    (dissect_attribute_value_pairs witCtx witDict [1, 3, 65, 5, 1] ((0 : Nat) : Int)
      ((declLen (AvpSpec.mk 1 [65]) + 2 : Nat) : Int)).eapHandoff = none := by
  refine ⟨by decide, by decide, ?_⟩
  exact malformed_avp_stops_c4.2 witCtx witDict [1, 3, 65, 5, 1] 0 (AvpSpec.mk 1 [65]) 5
    (by decide) (by decide) (by decide) (by decide) (by decide)

/-! ## Claim C7 -/

/-- C7: an AVP whose type (or, for a vendor-specific AVP, whose vendor or
sub-type) has no dictionary entry does not abort decoding: the walker
substitutes the generic `no_dictionary_entry` ("Unknown-Attribute")
descriptor, emits a decoded-attribute event rendering the raw value bytes
as octets, and continues with the next AVP (the loop tail is exactly the
ordinary one). -/
theorem unknown_attribute_degrades_c7 :
    (∀ (ctx : DecodeCtx) (dict : RadiusDictionary) (tvb : List Nat) (f : Nat)
       (offset length : Int) (st : EapState) (t dl : Nat),
       ¬(offset < 0 ∨ offset + 2 > (tvb.length : Int)) →
       byteAtI tvb offset = t →
       byteAtI tvb (offset + 1) = dl →
       t ≠ 26 → t ≠ 79 → 3 ≤ dl →
       ¬(offset + (dl : Int) > (tvb.length : Int)) →
       dict.attrs_by_id t = none →
       walkAux ctx dict tvb (f + 1) offset length st =
         (let ev : AvpEvent := ⟨no_dictionary_entry, none, none, t, none,
            offset + 2, sub32 dl 2, .octets (extractI tvb (offset + 2) (sub32 dl 2))⟩
          if subWrapI length dl > 0 then
            let r := walkAux ctx dict tvb f (addWrapI (offset + 2) (sub32 dl 2))
              (subWrapI length dl) st
            ⟨ev :: r.events, r.status, r.eap, r.finalOffset, r.finalLength⟩
          else ⟨[ev], .done, st, addWrapI (offset + 2) (sub32 dl 2), subWrapI length dl⟩)) ∧
    (∀ (ctx : DecodeCtx) (dict : RadiusDictionary) (tvb : List Nat) (f : Nat)
       (offset length : Int) (st : EapState) (dl : Nat),
       ¬(offset < 0 ∨ offset + 2 > (tvb.length : Int)) →
       byteAtI tvb offset = 26 →
       byteAtI tvb (offset + 1) = dl →
       3 ≤ dl →
       ¬(offset + (dl : Int) > (tvb.length : Int)) →
       ¬(offset + 8 > (tvb.length : Int)) →
       vsaLookup dict (vendorIdAt tvb offset) (byteAtI tvb (offset + 6)) = none →
       walkAux ctx dict tvb (f + 1) offset length st =
         (let ev : AvpEvent := ⟨no_dictionary_entry, some (vendorIdAt tvb offset),
            (dict.vendors_by_id (vendorIdAt tvb offset)).map (fun v => v.name),
            byteAtI tvb (offset + 6), none,
            offset + 8, sub32 dl 8, .octets (extractI tvb (offset + 8) (sub32 dl 8))⟩
          if subWrapI length dl > 0 then
            let r := walkAux ctx dict tvb f (addWrapI (offset + 8) (sub32 dl 8))
              (subWrapI length dl) st
            ⟨ev :: r.events, r.status, r.eap, r.finalOffset, r.finalLength⟩
          else ⟨[ev], .done, st, addWrapI (offset + 8) (sub32 dl 8), subWrapI length dl⟩)) := by
  constructor
  · intro ctx dict tvb f offset length st t dl hok hT hDL ht26 ht79 h3 hens hnone
    rw [walkAux_step_plain ctx dict tvb f offset length st t dl hok hT hDL ht79 h3 hens
      (by rintro ⟨h26', _⟩; exact ht26 h26')
      (not_tagReadOOB_untagged dict tvb offset t dl
        (by simp [avpLookup, ht26, hnone, no_dictionary_entry]))]
    rw [processAvp_unknown ctx dict tvb offset t dl ht26 hnone]
  · intro ctx dict tvb f offset length st dl hok hT hDL h3 hens h8 hnone
    rw [walkAux_step_plain ctx dict tvb f offset length st 26 dl hok hT hDL (by omega) h3 hens
      (by rintro ⟨_, hgt⟩; exact h8 hgt)
      (not_tagReadOOB_untagged dict tvb offset 26 dl
        (by simp [avpLookup, hnone, no_dictionary_entry]))]
    rw [processAvp_vsa_unknown ctx dict tvb offset dl hnone]

theorem unknown_attribute_degrades_c7_witness :
    (walkAux witCtx witDict [1, 3, 65] (0 + 1) 0 3 ⟨[], 0, false, none⟩ =
      (let ev : AvpEvent := ⟨no_dictionary_entry, none, none, 1, none,
         (0 : Int) + 2, sub32 3 2, .octets (extractI [1, 3, 65] ((0 : Int) + 2) (sub32 3 2))⟩
       if subWrapI 3 3 > 0 then
         let r := walkAux witCtx witDict [1, 3, 65] 0 (addWrapI ((0 : Int) + 2) (sub32 3 2))
           (subWrapI 3 3) ⟨[], 0, false, none⟩
         ⟨ev :: r.events, r.status, r.eap, r.finalOffset, r.finalLength⟩
       else ⟨[ev], .done, ⟨[], 0, false, none⟩, addWrapI ((0 : Int) + 2) (sub32 3 2),
         subWrapI 3 3⟩)) ∧
    (walkAux witCtx witDict [26, 9, 0, 0, 0, 9, 5, 3, 7] (0 + 1) 0 9 ⟨[], 0, false, none⟩ =
      (let ev : AvpEvent := ⟨no_dictionary_entry,
         some (vendorIdAt [26, 9, 0, 0, 0, 9, 5, 3, 7] 0),
         (witDict.vendors_by_id (vendorIdAt [26, 9, 0, 0, 0, 9, 5, 3, 7] 0)).map
           (fun v => v.name),
         byteAtI [26, 9, 0, 0, 0, 9, 5, 3, 7] ((0 : Int) + 6), none,
         (0 : Int) + 8, sub32 9 8,
         .octets (extractI [26, 9, 0, 0, 0, 9, 5, 3, 7] ((0 : Int) + 8) (sub32 9 8))⟩
       if subWrapI 9 9 > 0 then
         let r := walkAux witCtx witDict [26, 9, 0, 0, 0, 9, 5, 3, 7] 0
           (addWrapI ((0 : Int) + 8) (sub32 9 8)) (subWrapI 9 9) ⟨[], 0, false, none⟩
         ⟨ev :: r.events, r.status, r.eap, r.finalOffset, r.finalLength⟩
       else ⟨[ev], .done, ⟨[], 0, false, none⟩, addWrapI ((0 : Int) + 8) (sub32 9 8),
         subWrapI 9 9⟩)) :=
  ⟨unknown_attribute_degrades_c7.1 witCtx witDict [1, 3, 65] 0 0 3 ⟨[], 0, false, none⟩ 1 3
    (by decide) (by decide) (by decide) (by decide) (by decide) (by decide) (by decide)
    rfl,
   unknown_attribute_degrades_c7.2 witCtx witDict [26, 9, 0, 0, 0, 9, 5, 3, 7] 0 0 9
    ⟨[], 0, false, none⟩ 9
    (by decide) (by decide) (by decide) (by decide) (by decide) (by decide) rfl⟩

/-! ## Claim C8 -/

/-- C8: for an attribute whose descriptor is marked tagged, a first
effective-value byte at most 0x1F is extracted as the Tag (so 0x1F
yields Tag 31) and the effective value region shrinks by one byte from
the front; a first byte 0x20 or greater extracts no Tag and leaves the
region untouched. -/
theorem tagged_attribute_tag_c8
    (ctx : DecodeCtx) (dict : RadiusDictionary) (tvb : List Nat) (f : Nat)
    (offset length : Int) (st : EapState) (t dl : Nat)
    (hok : ¬(offset < 0 ∨ offset + 2 > (tvb.length : Int)))
    (hT : byteAtI tvb offset = t)
    (hDL : byteAtI tvb (offset + 1) = dl)
    (ht26 : t ≠ 26) (ht79 : t ≠ 79)
    (h3 : 3 ≤ dl) (h256 : dl < 256)
    (hens : ¬(offset + (dl : Int) > (tvb.length : Int)))
    (htag : ((dict.attrs_by_id t).getD no_dictionary_entry).tagged = true) :
    ∃ ev evs, (walkAux ctx dict tvb (f + 1) offset length st).events = ev :: evs ∧
      (byteAtI tvb (offset + 2) ≤ 31 →
        ev.tag = some (byteAtI tvb (offset + 2)) ∧
        ev.valueOffset = offset + 2 + 1 ∧ ev.effLen = dl - 3) ∧
      (31 < byteAtI tvb (offset + 2) →
        ev.tag = none ∧ ev.valueOffset = offset + 2 ∧ ev.effLen = dl - 2) := by
  have hevents : ∃ evs, (walkAux ctx dict tvb (f + 1) offset length st).events
      = (processAvp ctx dict tvb offset t dl).1 :: evs := by
    rw [walkAux_step_plain ctx dict tvb f offset length st t dl hok hT hDL ht79 h3 hens
      (by rintro ⟨h26', _⟩; exact ht26 h26')
      (not_tagReadOOB dict tvb offset t dl (by push_neg at hok; omega)
        (fun h => absurd h ht26) (fun _ => by omega))]
    dsimp only
    split
    · exact ⟨_, rfl⟩
    · exact ⟨[], rfl⟩
  obtain ⟨evs, hevs⟩ := hevents
  refine ⟨_, evs, hevs, ?_, ?_⟩
  · intro hble
    have h := processAvp_tag_le ctx dict tvb offset t dl ht26 htag hble
    rw [sub32_eq dl 2 (by omega) (by omega),
      sub32_eq (dl - 2) 1 (by omega) (by omega)] at h
    refine ⟨h.1, h.2.1, ?_⟩
    have := h.2.2
    omega
  · intro hbgt
    have h := processAvp_tag_gt ctx dict tvb offset t dl ht26 htag (by omega)
    rw [sub32_eq dl 2 (by omega) (by omega)] at h
    exact h

theorem tagged_attribute_tag_c8_witness :
    (∃ ev evs, (walkAux witCtx witDictTag [64, 5, 31, 0, 1] (0 + 1) 0 5
        ⟨[], 0, false, none⟩).events = ev :: evs ∧
      (byteAtI [64, 5, 31, 0, 1] ((0 : Int) + 2) ≤ 31 →
        ev.tag = some (byteAtI [64, 5, 31, 0, 1] ((0 : Int) + 2)) ∧
        ev.valueOffset = (0 : Int) + 2 + 1 ∧ ev.effLen = 5 - 3) ∧
      (31 < byteAtI [64, 5, 31, 0, 1] ((0 : Int) + 2) →
        ev.tag = none ∧ ev.valueOffset = (0 : Int) + 2 ∧ ev.effLen = 5 - 2)) ∧
    (∃ ev evs, (walkAux witCtx witDictTag [64, 5, 32, 0, 1] (0 + 1) 0 5
        ⟨[], 0, false, none⟩).events = ev :: evs ∧
      (byteAtI [64, 5, 32, 0, 1] ((0 : Int) + 2) ≤ 31 →
        ev.tag = some (byteAtI [64, 5, 32, 0, 1] ((0 : Int) + 2)) ∧
        ev.valueOffset = (0 : Int) + 2 + 1 ∧ ev.effLen = 5 - 3) ∧
      (31 < byteAtI [64, 5, 32, 0, 1] ((0 : Int) + 2) →
        ev.tag = none ∧ ev.valueOffset = (0 : Int) + 2 ∧ ev.effLen = 5 - 2)) :=
  ⟨tagged_attribute_tag_c8 witCtx witDictTag [64, 5, 31, 0, 1] 0 0 5 ⟨[], 0, false, none⟩
      64 5 (by decide) (by decide) (by decide) (by decide) (by decide) (by decide)
      (by decide) (by decide) (by decide),
   tagged_attribute_tag_c8 witCtx witDictTag [64, 5, 32, 0, 1] 0 0 5 ⟨[], 0, false, none⟩
      64 5 (by decide) (by decide) (by decide) (by decide) (by decide) (by decide)
      (by decide) (by decide) (by decide)⟩

/-! ## Claim C1 (the code has no vendor-length check) -/

/-- C1 is refuted by the code: no `length ≥ 8` check exists for
Vendor-Specific AVPs.  On a declared outer length of 7 (here
`[26,7,0,0,0,9,171]` followed by the AVP `[1,3,65]`, region length 10)
the walker enters the vendor branch anyway: it reads the vendor id (9)
and the sub-header, computes the effective value length `7 - 8` by
`guint32` underflow (4294967295), emits a decoded-attribute event for
this AVP, keeps consuming (a second event is emitted for the following
AVP), and finishes with status `done` — it never reports MalformedAvp. -/
theorem vendor_short_avp_underflow_c1 :
    (dissect_attribute_value_pairs witCtx witDict
        [26, 7, 0, 0, 0, 9, 171, 1, 3, 65] 0 10).status = .done ∧
    (dissect_attribute_value_pairs witCtx witDict
        [26, 7, 0, 0, 0, 9, 171, 1, 3, 65] 0 10).status ≠ .malformedAvp ∧
    (dissect_attribute_value_pairs witCtx witDict
        [26, 7, 0, 0, 0, 9, 171, 1, 3, 65] 0 10).events.map
        (fun e => (e.code, e.vendorId, e.effLen, e.tag))
      = [(171, some 9, 4294967295, none), (1, none, 1, none)] := by
  exact ⟨by decide, by decide, by decide⟩

/-! ## Claim C10 -/

/-- C10: `radius_register_avp_dissector` with `vendor_id = 0` installs
the decoder on the top-level attribute table entry for `attribute_id` and
touches no vendor table; a missing entry is created as a synthetic
`Unknown-Attribute-<code>` descriptor (not encrypted, no semantic value
decoder, no value strings — only the uninitialised `tagged` field is
indeterminate); an existing entry has only its `dissector` field
overwritten; other codes are untouched; and repeated registration for the
same code leaves the decoder of the last registration. -/
theorem register_avp_dissector_zero_vendor_c10
    (junk junk2 : Bool) (dict : RadiusDictionary) (code : Nat)
    (f f2 : List Nat → String) :
    (radius_register_avp_dissector junk dict 0 code f).vendors_by_id = dict.vendors_by_id ∧
    (radius_register_avp_dissector junk dict 0 code f).attrs_by_id code =
      some (match dict.attrs_by_id code with
            | some e => { e with dissector := some f }
            | none =>
                { name := "Unknown-Attribute-" ++ toString code, code := code,
                  encrypt := false, tagged := junk, type := none, vs := none,
                  dissector := some f }) ∧
    (∀ c, c ≠ code →
      (radius_register_avp_dissector junk dict 0 code f).attrs_by_id c =
        dict.attrs_by_id c) ∧
    (radius_register_avp_dissector junk2
        (radius_register_avp_dissector junk dict 0 code f) 0 code f2).attrs_by_id code =
      some { (match dict.attrs_by_id code with
              | some e => { e with dissector := some f }
              | none =>
                  { name := "Unknown-Attribute-" ++ toString code, code := code,
                    encrypt := false, tagged := junk, type := none, vs := none,
                    dissector := some f }) with dissector := some f2 } := by
  have h00 : ¬ ((0 : Nat) ≠ 0) := by omega
  refine ⟨?_, ?_, ?_, ?_⟩
  · simp only [radius_register_avp_dissector, if_neg h00]
  · simp only [radius_register_avp_dissector, if_neg h00, updateAttrTable]
    cases hx : dict.attrs_by_id code <;> simp [hx]
  · intro c hc
    simp only [radius_register_avp_dissector, if_neg h00, updateAttrTable]
    rw [if_neg hc]
  · simp only [radius_register_avp_dissector, if_neg h00, updateAttrTable]
    cases hx : dict.attrs_by_id code <;> simp [hx]

theorem register_avp_dissector_zero_vendor_c10_witness :
    (radius_register_avp_dissector false witDict 0 5 (fun _ => "a")).vendors_by_id
        = witDict.vendors_by_id ∧
    (radius_register_avp_dissector false witDict 0 5 (fun _ => "a")).attrs_by_id 5 =
      some { name := "Unknown-Attribute-" ++ toString 5, code := 5, encrypt := false,
             tagged := false, type := none, vs := none,
             dissector := some (fun _ => "a") } ∧
    (radius_register_avp_dissector false witDict 0 5 (fun _ => "a")).attrs_by_id 7 =
      witDict.attrs_by_id 7 ∧
    (radius_register_avp_dissector false
        (radius_register_avp_dissector false witDict 0 5 (fun _ => "a")) 0 5
        (fun _ => "b")).attrs_by_id 5 =
      some { name := "Unknown-Attribute-" ++ toString 5, code := 5, encrypt := false,
             tagged := false, type := none, vs := none,
             dissector := some (fun _ => "b") } := by
  have h := register_avp_dissector_zero_vendor_c10 false false witDict 5
    (fun _ => "a") (fun _ => "b")
  exact ⟨h.1, h.2.1, h.2.2.1 7 (by decide), h.2.2.2⟩

/-! ## Claim C3 -/

theorem string_join_fold (b : List String) :
    ∀ s : String, b.foldl (fun r t => r ++ t) s = s ++ b.foldl (fun r t => r ++ t) "" := by
  induction b with
  | nil => intro s; simp
  | cons x xs ih =>
      intro s
      simp only [List.foldl_cons]
      rw [ih (s ++ x), ih ("" ++ x)]
      simp [String.append_assoc]

theorem string_join_append (a b : List String) :
    String.join (a ++ b) = String.join a ++ String.join b := by
  unfold String.join
  rw [List.foldl_append]
  exact string_join_fold b _

/-- The byte sequence produced by the two loops of `radius_decrypt_avp`
coincides, index by index, with the spec's description: position `i` is
the XOR with the digest for `i < 16` and the plain ciphertext byte
beyond. -/
theorem decrypt_bytes_eq (pd digest : List Nat) (hdig : digest.length = 16) :
    List.zipWith (fun c d => Nat.xor c d) (pd.take 16) digest ++ pd.drop 16 =
    (List.range pd.length).map
      (fun i => if i < 16 then Nat.xor (pd.getD i 0) (digest.getD i 0) else pd.getD i 0) := by
  have hzlen : (List.zipWith (fun c d => Nat.xor c d) (pd.take 16) digest).length
      = min 16 pd.length := by
    rw [List.length_zipWith, List.length_take, hdig]
    omega
  apply List.ext_getElem?
  intro i
  rw [List.getElem?_map]
  by_cases hi : i < pd.length
  · rw [List.getElem?_range hi]
    by_cases h16 : i < 16
    · have hzi : i < (List.zipWith (fun c d => Nat.xor c d) (pd.take 16) digest).length := by
        rw [hzlen]; exact Nat.lt_min.mpr ⟨h16, hi⟩
      rw [List.getElem?_append_left hzi]
      rw [List.getElem?_zipWith]
      rw [List.getElem?_take, if_pos h16]
      rw [List.getElem?_eq_getElem hi,
        List.getElem?_eq_getElem (show i < digest.length by omega)]
      have hg1 : pd.getD i 0 = pd[i] := List.getD_eq_getElem pd 0 hi
      have hg2 : digest.getD i 0 = digest[i] := List.getD_eq_getElem digest 0 (by omega)
      simp [hg1, hg2, h16]
      rw [List.getElem?_eq_getElem hi,
        List.getElem?_eq_getElem (show i < digest.length by omega)]
      rfl
    · have h16' : 16 ≤ i := by omega
      have hzi : (List.zipWith (fun c d => Nat.xor c d) (pd.take 16) digest).length ≤ i := by
        rw [hzlen]; exact le_trans (Nat.min_le_left _ _) h16'
      rw [List.getElem?_append_right hzi]
      rw [hzlen, Nat.min_eq_left (by omega : 16 ≤ pd.length)]
      rw [List.getElem?_drop]
      have hidx : 16 + (i - 16) = i := by omega
      rw [hidx, List.getElem?_eq_getElem hi]
      have hg1 : pd.getD i 0 = pd[i] := List.getD_eq_getElem pd 0 hi
      simp [hg1, h16]
      rw [List.getElem?_eq_getElem hi]
      rfl
  · have hlen1 : (List.range pd.length).length ≤ i := by simpa using hi
    have hlen2 : (List.zipWith (fun c d => Nat.xor c d) (pd.take 16) digest ++
        pd.drop 16).length ≤ i := by
      rw [List.length_append, hzlen, List.length_drop]; omega
    rw [List.getElem?_eq_none hlen1, List.getElem?_eq_none hlen2]
    rfl

/-- C3: `radius_decrypt_avp` computes one digest
`MD5(shared_secret ‖ authenticator)`; output byte `i` equals
`ciphertext[i] XOR digest[i]` for `i < 16` and `ciphertext[i]` unchanged
for `i ≥ 16`; each output byte is rendered literally when printable and
as a 3-digit octal escape otherwise; and the rendered result is wrapped
in exactly one leading and one trailing quote — that is, the C routine
coincides with the spec-shaped `radius_decrypt_spec`. -/
theorem radius_decrypt_avp_c3 (md5 : List Nat → List Nat)
    (shared_secret authenticator pd : List Nat)
    (hdig : (md5 (shared_secret ++ authenticator)).length = 16) :
    radius_decrypt_avp md5 shared_secret authenticator pd =
      radius_decrypt_spec md5 shared_secret authenticator pd := by
  unfold radius_decrypt_avp radius_decrypt_spec
  dsimp only
  rw [← decrypt_bytes_eq pd (md5 (shared_secret ++ authenticator)) hdig]
  rw [List.map_append, string_join_append]
  simp [String.append_assoc]

theorem radius_decrypt_avp_c3_witness :
    ((fun _ : List Nat => List.replicate 16 0) ([] ++ [])).length = 16 ∧
    radius_decrypt_avp (fun _ => List.replicate 16 0) [] [] [65, 200] =
      radius_decrypt_spec (fun _ => List.replicate 16 0) [] [] [65, 200] :=
  ⟨by simp, radius_decrypt_avp_c3 (fun _ => List.replicate 16 0) [] [] [65, 200] (by simp)⟩

/-! ## Claim C5 -/

/-- Region facts for the first AVP of a well-formed region, plus the
shifted facts for the remainder. -/
theorem region_peel (tvb : List Nat) (o : Nat) (a : AvpSpec) (rest : List AvpSpec)
    (hx : extract tvb o (sumLens (a :: rest)) = regionBytes (a :: rest))
    (hb : o + sumLens (a :: rest) ≤ tvb.length)
    (hwf : wfAvp a) :
    byteAtI tvb (o : Int) = a.atype ∧
    byteAtI tvb ((o : Int) + 1) = declLen a ∧
    extract tvb (o + 2) a.payload.length = a.payload ∧
    extract tvb (o + declLen a) (sumLens rest) = regionBytes rest ∧
    o + declLen a + sumLens rest ≤ tvb.length := by
  have hx1 : extract tvb o (declLen a + (regionBytes rest).length) =
      avpBytes a ++ regionBytes rest := by
    rw [regionBytes_length, ← sumLens_cons, hx, regionBytes_cons]
  have hb1 : o + (declLen a + (regionBytes rest).length) ≤ tvb.length := by
    rw [regionBytes_length, ← sumLens_cons]; exact hb
  obtain ⟨h1, h2, h3, h4⟩ := avp_head_facts tvb o a (regionBytes rest) hx1 hb1 hwf
  rw [regionBytes_length] at h4
  refine ⟨h1, h2, h3, h4, ?_⟩
  rw [sumLens_cons] at hb
  omega

/-- One EAP-Message fragment whose successor AVP is also EAP-Message:
append the fragment, bump the segment count, keep `last_eap` as it was. -/
theorem walkAux_eap_chunk_mid (ctx : DecodeCtx) (dict : RadiusDictionary)
    (tvb : List Nat) (f o : Nat) (L : Int) (ac : List Nat) (sn : Nat)
    (tv : Option (List Nat)) (p : List Nat)
    (hp256 : p.length + 2 < 256) (hp1 : 1 ≤ p.length)
    (hT : byteAtI tvb (o : Int) = 79)
    (hDL : byteAtI tvb ((o : Int) + 1) = p.length + 2)
    (hpay : extract tvb (o + 2) p.length = p)
    (hnext : byteAtI tvb ((o + (p.length + 2) : Nat) : Int) = 79)
    (hbound : o + (p.length + 2) + 3 ≤ tvb.length)
    (hlen : (tvb.length : Int) < 2147483648)
    (hov : ac.length + p.length ≤ 4096) :
    walkAux ctx dict tvb (f + 1) (o : Int) L ⟨ac, sn, false, tv⟩ =
      (if subWrapI L (p.length + 2) > 0 then
        walkAux ctx dict tvb f ((o + (p.length + 2) : Nat) : Int)
          (subWrapI L (p.length + 2)) ⟨ac ++ p, sn + 1, false, tv⟩
      else ⟨[], .done, ⟨ac ++ p, sn + 1, false, tv⟩,
        ((o + (p.length + 2) : Nat) : Int), subWrapI L (p.length + 2)⟩) := by
  have hlenN : tvb.length < 2147483648 := by exact_mod_cast hlen
  have haw : addWrapI (o : Int) (p.length + 2) = ((o + (p.length + 2) : Nat) : Int) := by
    rw [addWrapI_eq _ _ (by omega) (by omega)]
    push_cast; ring
  have hstep : eapStep tvb (o : Int) (p.length + 2) ⟨ac, sn, false, tv⟩ =
      ⟨ac ++ p, sn + 1, false, tv⟩ := by
    unfold eapStep
    have hseg : p.length + 2 - 2 = p.length := by omega
    rw [hseg]
    rw [extractI_eq tvb _ (o + 2) p.length (by push_cast; ring), hpay]
    rw [if_pos (show (o : Int) + ((p.length + 2 : Nat) : Int) + 3 ≤ (tvb.length : Int) by
      push_cast; omega)]
    rw [haw, hnext]
    simp
  rw [walkAux_step_eap ctx dict tvb f (o : Int) L ⟨ac, sn, false, tv⟩ (p.length + 2)
    (by push_neg; constructor <;> omega)
    hT hDL (by omega)
    (by push_neg; push_cast; omega)
    (by simpa using hov)]
  rw [haw, hstep]

/-- One EAP-Message fragment whose successor AVP is not EAP-Message: the
fragment is the last one; the accumulated buffer becomes the reassembled
blob. -/
theorem walkAux_eap_chunk_last (ctx : DecodeCtx) (dict : RadiusDictionary)
    (tvb : List Nat) (f o : Nat) (L : Int) (ac : List Nat) (sn : Nat)
    (tv : Option (List Nat)) (p : List Nat) (nt : Nat)
    (hp256 : p.length + 2 < 256) (hp1 : 1 ≤ p.length)
    (hT : byteAtI tvb (o : Int) = 79)
    (hDL : byteAtI tvb ((o : Int) + 1) = p.length + 2)
    (hpay : extract tvb (o + 2) p.length = p)
    (hnext : byteAtI tvb ((o + (p.length + 2) : Nat) : Int) = nt)
    (hnt : nt ≠ 79)
    (hbound : o + (p.length + 2) + 3 ≤ tvb.length)
    (hlen : (tvb.length : Int) < 2147483648)
    (hov : ac.length + p.length ≤ 4096) :
    walkAux ctx dict tvb (f + 1) (o : Int) L ⟨ac, sn, false, tv⟩ =
      (if subWrapI L (p.length + 2) > 0 then
        walkAux ctx dict tvb f ((o + (p.length + 2) : Nat) : Int)
          (subWrapI L (p.length + 2)) ⟨ac ++ p, sn + 1, true, some (ac ++ p)⟩
      else ⟨[], .done, ⟨ac ++ p, sn + 1, true, some (ac ++ p)⟩,
        ((o + (p.length + 2) : Nat) : Int), subWrapI L (p.length + 2)⟩) := by
  have hlenN : tvb.length < 2147483648 := by exact_mod_cast hlen
  have haw : addWrapI (o : Int) (p.length + 2) = ((o + (p.length + 2) : Nat) : Int) := by
    rw [addWrapI_eq _ _ (by omega) (by omega)]
    push_cast; ring
  have hstep : eapStep tvb (o : Int) (p.length + 2) ⟨ac, sn, false, tv⟩ =
      ⟨ac ++ p, sn + 1, true, some (ac ++ p)⟩ := by
    unfold eapStep
    have hseg : p.length + 2 - 2 = p.length := by omega
    rw [hseg]
    rw [extractI_eq tvb _ (o + 2) p.length (by push_cast; ring), hpay]
    rw [if_pos (show (o : Int) + ((p.length + 2 : Nat) : Int) + 3 ≤ (tvb.length : Int) by
      push_cast; omega)]
    rw [haw, hnext]
    simp [hnt]
  rw [walkAux_step_eap ctx dict tvb f (o : Int) L ⟨ac, sn, false, tv⟩ (p.length + 2)
    (by push_neg; constructor <;> omega)
    hT hDL (by omega)
    (by push_neg; push_cast; omega)
    (by simpa using hov)]
  rw [haw, hstep]

/-- A single well-formed non-EAP AVP exhausting the countdown: the loop
finishes and leaves the EAP state untouched. -/
theorem walkAux_single_plain (ctx : DecodeCtx) (dict : RadiusDictionary)
    (tvb : List Nat) (f o : Nat) (st : EapState) (a : AvpSpec)
    (hx : extract tvb o (sumLens [a]) = regionBytes [a])
    (hb : o + sumLens [a] ≤ tvb.length)
    (hlen : (tvb.length : Int) < 2147483648)
    (hwf : wfAvp a) (h79 : a.atype ≠ 79)
    (hacc : st.accum.length + sumLens [a] ≤ 4098)
    (hcorner : (∀ x ∈ [a], x.atype = 26 → 7 ≤ x.payload.length) ∨
      o + sumLens [a] < tvb.length) :
    (walkAux ctx dict tvb (f + 1) (o : Int) ((sumLens [a] : Nat) : Int) st).status = .done ∧
    (walkAux ctx dict tvb (f + 1) (o : Int) ((sumLens [a] : Nat) : Int) st).eap = st := by
  obtain ⟨evs, st', heq, himp⟩ := walkAux_wf ctx dict tvb hlen [a] (f + 1) o st
    (by simp) (by simpa using hwf) hx hb hcorner hacc (by simp)
  rw [heq]
  have := himp (by simpa using h79)
  rw [this]
  exact ⟨rfl, rfl⟩

/-- Refuting instance for C5 as originally stated: three EAP-Message
fragments (value lengths 10, 10, 5) followed by a well-formed
Vendor-Specific AVP of declared outer length exactly 8 whose dictionary
entry is tagged, with the captured buffer ending exactly at the region
end.  The blob `p1 ++ p2 ++ p3` is assembled, but in the final iteration
the tag extraction reads one byte past the buffer: the bounds exception
aborts the loop before the post-loop `call_dissector`, so the blob is
never handed to the external EAP decoder. -/
theorem eap_reassembly_c5_counterexample :
    wfAvp (AvpSpec.mk 26 [0, 0, 0, 9, 1, 2]) ∧
    (AvpSpec.mk 26 [0, 0, 0, 9, 1, 2]).atype ≠ 79 ∧
    0 + sumLens [⟨79, List.replicate 10 1⟩, ⟨79, List.replicate 10 2⟩,
        ⟨79, List.replicate 5 3⟩, ⟨26, [0, 0, 0, 9, 1, 2]⟩] ≤
      (regionBytes [⟨79, List.replicate 10 1⟩, ⟨79, List.replicate 10 2⟩,
        ⟨79, List.replicate 5 3⟩, ⟨26, [0, 0, 0, 9, 1, 2]⟩]).length ∧
    (dissect_attribute_value_pairs witCtx witDictVTag
      (regionBytes [⟨79, List.replicate 10 1⟩, ⟨79, List.replicate 10 2⟩,
        ⟨79, List.replicate 5 3⟩, ⟨26, [0, 0, 0, 9, 1, 2]⟩]) ((0 : Nat) : Int)
      ((sumLens [⟨79, List.replicate 10 1⟩, ⟨79, List.replicate 10 2⟩,
        ⟨79, List.replicate 5 3⟩, ⟨26, [0, 0, 0, 9, 1, 2]⟩] : Nat) : Int)).status =
      .truncated ∧
    (dissect_attribute_value_pairs witCtx witDictVTag
      (regionBytes [⟨79, List.replicate 10 1⟩, ⟨79, List.replicate 10 2⟩,
        ⟨79, List.replicate 5 3⟩, ⟨26, [0, 0, 0, 9, 1, 2]⟩]) ((0 : Nat) : Int)
      ((sumLens [⟨79, List.replicate 10 1⟩, ⟨79, List.replicate 10 2⟩,
        ⟨79, List.replicate 5 3⟩, ⟨26, [0, 0, 0, 9, 1, 2]⟩] : Nat) : Int)).eapHandoff =
      none :=
  ⟨by decide, by decide, by decide, by decide, by decide⟩

/-- C5 (amended): consecutive EAP-Message AVPs have their value bytes
concatenated in encounter order into one buffer; with fragment value
lengths 10, 10 and 5 followed by a non-EAP AVP, the reassembled blob is
`p1 ++ p2 ++ p3` (25 bytes) and is handed to the external EAP decoder
exactly once, after the walker's main loop completes (the walker result's
single post-loop `eapHandoff`) — provided the trailing AVP is not a
vendor-specific AVP of declared length exactly 8 ending at the buffer
end with a tagged dictionary entry (there the tag-byte read throws a
bounds exception before the post-loop handoff — the refuting instance
above); a region containing no EAP-Message AVP (under the same proviso)
never calls the external EAP decoder. -/
theorem eap_reassembly_c5 :
    (∀ (ctx : DecodeCtx) (dict : RadiusDictionary) (tvb : List Nat) (o : Nat)
       (p1 p2 p3 : List Nat) (a : AvpSpec),
       p1.length = 10 → p2.length = 10 → p3.length = 5 →
       (∀ b ∈ p1, b < 256) → (∀ b ∈ p2, b < 256) → (∀ b ∈ p3, b < 256) →
       wfAvp a → a.atype ≠ 79 →
       extract tvb o (sumLens [⟨79, p1⟩, ⟨79, p2⟩, ⟨79, p3⟩, a]) =
         regionBytes [⟨79, p1⟩, ⟨79, p2⟩, ⟨79, p3⟩, a] →
       o + sumLens [⟨79, p1⟩, ⟨79, p2⟩, ⟨79, p3⟩, a] ≤ tvb.length →
       ((a.atype = 26 → 7 ≤ a.payload.length) ∨
         o + sumLens [⟨79, p1⟩, ⟨79, p2⟩, ⟨79, p3⟩, a] < tvb.length) →
       (tvb.length : Int) < 2147483648 →
       (dissect_attribute_value_pairs ctx dict tvb (o : Int)
           ((sumLens [⟨79, p1⟩, ⟨79, p2⟩, ⟨79, p3⟩, a] : Nat) : Int)).eapHandoff =
           some (p1 ++ p2 ++ p3) ∧
       (p1 ++ p2 ++ p3).length = 25 ∧
       (dissect_attribute_value_pairs ctx dict tvb (o : Int)
           ((sumLens [⟨79, p1⟩, ⟨79, p2⟩, ⟨79, p3⟩, a] : Nat) : Int)).status = .done) ∧
    (∀ (ctx : DecodeCtx) (dict : RadiusDictionary) (tvb : List Nat) (o : Nat)
       (avps : List AvpSpec),
       avps ≠ [] → (∀ a ∈ avps, wfAvp a) → (∀ a ∈ avps, a.atype ≠ 79) →
       sumLens avps ≤ 4076 →
       extract tvb o (sumLens avps) = regionBytes avps →
       o + sumLens avps ≤ tvb.length →
       ((∀ a ∈ avps, a.atype = 26 → 7 ≤ a.payload.length) ∨
         o + sumLens avps < tvb.length) →
       (tvb.length : Int) < 2147483648 →
       (dissect_attribute_value_pairs ctx dict tvb (o : Int)
           ((sumLens avps : Nat) : Int)).eapHandoff = none) := by
  constructor
  · intro ctx dict tvb o p1 p2 p3 a hp1 hp2 hp3 hq1 hq2 hq3 hwa h79a hx hb hc hlen
    have hlenN : tvb.length < 2147483648 := by exact_mod_cast hlen
    have hda3 : 3 ≤ declLen a := by have := hwa.2.1; unfold declLen; omega
    have hda256 : declLen a < 256 := by have := hwa.2.2.1; unfold declLen; omega
    have hw1 : wfAvp ⟨79, p1⟩ := by
      refine ⟨?_, ?_, ?_, ?_, ?_⟩
      · show (79 : Nat) < 256; decide
      · show 1 ≤ p1.length; omega
      · show p1.length + 2 < 256; omega
      · exact hq1
      · intro h; exact absurd (show (79 : Nat) = 26 from h) (by decide)
    have hw2 : wfAvp ⟨79, p2⟩ := by
      refine ⟨?_, ?_, ?_, ?_, ?_⟩
      · show (79 : Nat) < 256; decide
      · show 1 ≤ p2.length; omega
      · show p2.length + 2 < 256; omega
      · exact hq2
      · intro h; exact absurd (show (79 : Nat) = 26 from h) (by decide)
    have hw3 : wfAvp ⟨79, p3⟩ := by
      refine ⟨?_, ?_, ?_, ?_, ?_⟩
      · show (79 : Nat) < 256; decide
      · show 1 ≤ p3.length; omega
      · show p3.length + 2 < 256; omega
      · exact hq3
      · intro h; exact absurd (show (79 : Nat) = 26 from h) (by decide)
    have hd1 : declLen ⟨79, p1⟩ = p1.length + 2 := rfl
    have hd2 : declLen ⟨79, p2⟩ = p2.length + 2 := rfl
    have hd3 : declLen ⟨79, p3⟩ = p3.length + 2 := rfl
    have hsum : sumLens [⟨79, p1⟩, ⟨79, p2⟩, ⟨79, p3⟩, a] = 31 + declLen a := by
      simp [sumLens, declLen, hp1, hp2, hp3]; omega
    have hs2 : sumLens [⟨79, p2⟩, ⟨79, p3⟩, a] = 19 + declLen a := by
      simp [sumLens, declLen, hp2, hp3]; omega
    have hs3 : sumLens [⟨79, p3⟩, a] = 7 + declLen a := by
      simp [sumLens, declLen, hp3]
    have hs4 : sumLens [a] = declLen a := by
      simp [sumLens]
    obtain ⟨hT1, hDL1, hpay1, hx2, hbb2⟩ :=
      region_peel tvb o ⟨79, p1⟩ [⟨79, p2⟩, ⟨79, p3⟩, a] hx hb hw1
    obtain ⟨hT2, hDL2, hpay2, hx3, hbb3⟩ :=
      region_peel tvb (o + declLen ⟨79, p1⟩) ⟨79, p2⟩ [⟨79, p3⟩, a] hx2 hbb2 hw2
    obtain ⟨hT3, hDL3, hpay3, hx4, hbb4⟩ :=
      region_peel tvb (o + declLen ⟨79, p1⟩ + declLen ⟨79, p2⟩) ⟨79, p3⟩ [a] hx3 hbb3 hw3
    obtain ⟨hT4, hDL4, hpay4, _, hbb5⟩ :=
      region_peel tvb (o + declLen ⟨79, p1⟩ + declLen ⟨79, p2⟩ + declLen ⟨79, p3⟩)
        a [] hx4 hbb4 hwa
    have hwalk : (walkAux ctx dict tvb ((31 + declLen a) + 1) (o : Int)
        ((31 + declLen a : Nat) : Int) ⟨[], 0, false, none⟩).status = .done ∧
        (walkAux ctx dict tvb ((31 + declLen a) + 1) (o : Int)
        ((31 + declLen a : Nat) : Int) ⟨[], 0, false, none⟩).eap.eapTvb =
          some (p1 ++ p2 ++ p3) := by
      rw [walkAux_eap_chunk_mid ctx dict tvb (31 + declLen a) o
        ((31 + declLen a : Nat) : Int) [] 0 none p1
        (by omega) (by omega) hT1 hDL1 hpay1 hT2 (by omega) hlen (by simp; omega)]
      rw [show subWrapI ((31 + declLen a : Nat) : Int) (p1.length + 2) =
          ((19 + declLen a : Nat) : Int) from by
        rw [subWrapI_eq _ _ (by omega) (by omega)]; omega]
      rw [if_pos (by omega : ((19 + declLen a : Nat) : Int) > 0)]
      rw [show (31 + declLen a) = (30 + declLen a) + 1 from by omega]
      rw [walkAux_eap_chunk_mid ctx dict tvb (30 + declLen a) (o + (p1.length + 2))
        ((19 + declLen a : Nat) : Int) ([] ++ p1) (0 + 1) none p2
        (by omega) (by omega) hT2 hDL2 hpay2 hT3 (by omega) hlen
        (by simp [hp1, hp2])]
      rw [show subWrapI ((19 + declLen a : Nat) : Int) (p2.length + 2) =
          ((7 + declLen a : Nat) : Int) from by
        rw [subWrapI_eq _ _ (by omega) (by omega)]; omega]
      rw [if_pos (by omega : ((7 + declLen a : Nat) : Int) > 0)]
      rw [show (30 + declLen a) = (29 + declLen a) + 1 from by omega]
      rw [walkAux_eap_chunk_last ctx dict tvb (29 + declLen a)
        (o + (p1.length + 2) + (p2.length + 2))
        ((7 + declLen a : Nat) : Int) ([] ++ p1 ++ p2) (0 + 1 + 1) none p3 a.atype
        (by omega) (by omega) hT3 hDL3 hpay3 hT4 h79a (by omega) hlen
        (by simp [hp1, hp2, hp3])]
      rw [show subWrapI ((7 + declLen a : Nat) : Int) (p3.length + 2) =
          ((declLen a : Nat) : Int) from by
        rw [subWrapI_eq _ _ (by omega) (by omega)]; omega]
      rw [if_pos (by omega : ((declLen a : Nat) : Int) > 0)]
      rw [show (29 + declLen a) = (28 + declLen a) + 1 from by omega]
      have hsingle := walkAux_single_plain ctx dict tvb (28 + declLen a)
        (o + (p1.length + 2) + (p2.length + 2) + (p3.length + 2))
        ⟨[] ++ p1 ++ p2 ++ p3, 0 + 1 + 1 + 1, true, some ([] ++ p1 ++ p2 ++ p3)⟩
        a hx4 hbb4 hlen hwa h79a
        (by simp only [List.length_append, List.length_nil, hs4]
            simp [hp1, hp2, hp3]; omega)
        (by
          rcases hc with hA | hB
          · left
            intro x hx' hx26
            rw [List.mem_singleton] at hx'
            subst hx'
            exact hA hx26
          · right
            rw [hsum] at hB
            rw [hs4]
            omega)
      constructor
      · exact hsingle.1
      · have h2 : (walkAux ctx dict tvb ((28 + declLen a) + 1)
            ((o + (p1.length + 2) + (p2.length + 2) + (p3.length + 2) : Nat) : Int)
            ((declLen a : Nat) : Int)
            ⟨[] ++ p1 ++ p2 ++ p3, 0 + 1 + 1 + 1, true,
              some ([] ++ p1 ++ p2 ++ p3)⟩).eap =
            ⟨[] ++ p1 ++ p2 ++ p3, 0 + 1 + 1 + 1, true,
              some ([] ++ p1 ++ p2 ++ p3)⟩ := hsingle.2
        rw [h2]
        simp
    have hne0 : ¬ ((sumLens [⟨79, p1⟩, ⟨79, p2⟩, ⟨79, p3⟩, a] : Nat) : Int) = 0 := by
      omega
    have hgoal1 : (dissect_attribute_value_pairs ctx dict tvb (o : Int)
        ((sumLens [⟨79, p1⟩, ⟨79, p2⟩, ⟨79, p3⟩, a] : Nat) : Int)).eapHandoff =
        some (p1 ++ p2 ++ p3) := by
      unfold dissect_attribute_value_pairs
      rw [if_neg hne0]
      rw [Int.toNat_natCast, hsum]
      dsimp only
      rw [hwalk.1, if_pos rfl, hwalk.2]
    have hgoal3 : (dissect_attribute_value_pairs ctx dict tvb (o : Int)
        ((sumLens [⟨79, p1⟩, ⟨79, p2⟩, ⟨79, p3⟩, a] : Nat) : Int)).status = .done := by
      unfold dissect_attribute_value_pairs
      rw [if_neg hne0]
      rw [Int.toNat_natCast, hsum]
      dsimp only
      rw [hwalk.1]
    exact ⟨hgoal1, by simp [hp1, hp2, hp3], hgoal3⟩
  · intro ctx dict tvb o avps hne hwf h79 hsmall hx hb hcorner hlen
    have hsne : sumLens avps ≠ 0 := by
      rcases avps with _ | ⟨a, rest⟩
      · exact absurd rfl hne
      · have := (hwf a (by simp)).2.1
        rw [sumLens_cons]; unfold declLen; omega
    unfold dissect_attribute_value_pairs
    rw [if_neg (by exact_mod_cast hsne)]
    rw [Int.toNat_natCast]
    obtain ⟨evs, st', heq, himp⟩ := walkAux_wf ctx dict tvb hlen avps (sumLens avps + 1)
      o ⟨[], 0, false, none⟩ hne hwf hx hb hcorner
      (by simp only [List.length_nil]; omega)
      (by have := length_le_sumLens avps hwf; omega)
    rw [heq]
    have hst := himp h79
    rw [hst]
    rfl

theorem eap_reassembly_c5_witness :
    ((dissect_attribute_value_pairs witCtx witDict
        (regionBytes [⟨79, List.replicate 10 1⟩, ⟨79, List.replicate 10 2⟩,
          ⟨79, List.replicate 5 3⟩, ⟨1, [65]⟩]) ((0 : Nat) : Int)
        ((sumLens [⟨79, List.replicate 10 1⟩, ⟨79, List.replicate 10 2⟩,
          ⟨79, List.replicate 5 3⟩, ⟨1, [65]⟩] : Nat) : Int)).eapHandoff =
      some (List.replicate 10 1 ++ List.replicate 10 2 ++ List.replicate 5 3) ∧
    (List.replicate 10 1 ++ List.replicate 10 2 ++ List.replicate 5 3).length = 25 ∧
    (dissect_attribute_value_pairs witCtx witDict
        (regionBytes [⟨79, List.replicate 10 1⟩, ⟨79, List.replicate 10 2⟩,
          ⟨79, List.replicate 5 3⟩, ⟨1, [65]⟩]) ((0 : Nat) : Int)
        ((sumLens [⟨79, List.replicate 10 1⟩, ⟨79, List.replicate 10 2⟩,
          ⟨79, List.replicate 5 3⟩, ⟨1, [65]⟩] : Nat) : Int)).status = .done) ∧
    (dissect_attribute_value_pairs witCtx witDict [1, 3, 65] ((0 : Nat) : Int)
        ((sumLens [AvpSpec.mk 1 [65]] : Nat) : Int)).eapHandoff = none :=
  ⟨eap_reassembly_c5.1 witCtx witDict
      (regionBytes [⟨79, List.replicate 10 1⟩, ⟨79, List.replicate 10 2⟩,
        ⟨79, List.replicate 5 3⟩, ⟨1, [65]⟩]) 0
      (List.replicate 10 1) (List.replicate 10 2) (List.replicate 5 3) ⟨1, [65]⟩
      (by decide) (by decide) (by decide) (by decide) (by decide) (by decide)
      (by decide) (by decide) (by decide) (by decide) (Or.inl (by decide)) (by decide),
   eap_reassembly_c5.2 witCtx witDict [1, 3, 65] 0 [AvpSpec.mk 1 [65]]
      (by decide) (by decide) (by decide) (by decide) (by decide) (by decide)
      (Or.inl (by decide)) (by decide)⟩

end Radius
